import Mathlib

/-! # MidiToKb: a shallow embedding of `MidiToKb.c`

The development embeds the pieces of `MidiToKb.c` that turn MIDI bytes into
key events, and proves properties of them:

* `keymap_get_action`   : the lookup in the keymap linked list;
* `parse_rx_data`       : the two-byte matcher run on a filtered batch;
* `str_key_to_event`    : the lookup in `SUPPORTED_KEYS_ARRAY`;
* `emit_key`            : the key-down / key-up emission;
* `perform_action`      : the chord parser in front of `emit_key`;
* `transport_filter`    : the in-place filter of clock and active-sensing bytes;
* `main_loop_pass`      : one pass of the `for (;;)` loop of `main`;
* `main_loop`           : the passes of that loop up to its `break`;
* `load_keymap`         : the reader of the keymap file.

Conventions of the embedding.

* A byte (`unsigned char`) is a `Nat`; the embedded code only compares bytes.
  A `char` and an `int` are an `Int`; the stores that narrow one to the other
  are explicit (`to_char`, `to_u16`, `% 256`).
* A pointer to bytes (`unsigned char *buf`, `char *keys`) is the memory it
  points to, a function from the index to the value stored there.  The C code
  indexes the pointer without knowing how long the array behind it is, and so
  does the embedding.
* An array of known size that is written through an index (`events`) is a
  `List`; a store past its end is a `Fault`.
* A C string is its `List Char`, a string constant a `String`; the allocation
  of the copies `load_keymap` and `perform_action` make is not part of the
  embedding.
* The linked list rooted at `gKeymapRoot` is the `List` of its nodes, the head
  of the list being the root node; `NULL` is `[]`.
* A `char *` that may be `NULL` is an `Option`.
* A function that writes events or calls the environment returns the list of
  its writes or calls, in order.
-/

namespace MidiToKb

/-! ## The keymap -/

/-- A node of the keymap list (`KEYMAP_NODE_T`), without its `pNext` link: the
trigger byte and the action string. -/
structure KEYMAP_NODE_T where
  key : Nat
  action : String
deriving DecidableEq, Repr

/-- The `do { ... } while ((currentNode = currentNode->pNext) && !action)` loop
of `keymap_get_action`, entered with `currentNode :: rest` as the remaining list
and the current value of `action`. -/
def keymap_get_action_loop (key : Nat) :
    KEYMAP_NODE_T → List KEYMAP_NODE_T → Option String → Option String
  | currentNode, rest, action =>
    let action := if currentNode.key = key then some currentNode.action else action
    match rest, action with
    | [], action => action
    | _ :: _, some a => some a
    | next :: rest, none => keymap_get_action_loop key next rest none

/-- The function `keymap_get_action`: `NULL` for an empty keymap, otherwise the
result of the `do`-`while` scan started at the root with `action = NULL`. -/
def keymap_get_action (gKeymapRoot : List KEYMAP_NODE_T) (key : Nat) : Option String :=
  match gKeymapRoot with
  | [] => none
  | root :: rest => keymap_get_action_loop key root rest none

/-! ## The matcher -/

/-- One pass through the body of the `while` loop of `parse_rx_data`, entered
with the cursor at `currentIdx`: the action handed to `perform_action` in this
pass, if any, and the cursor at the end of the pass. -/
def parse_rx_step (gKeymapRoot : List KEYMAP_NODE_T) (buf : Nat → Nat) (currentIdx : Nat) :
    Option String × Nat :=
  let data := buf currentIdx
  let currentIdx := currentIdx + 1
  let dataNext := buf currentIdx
  let action := keymap_get_action gKeymapRoot data
  if data ≥ 0x80 then
    (none, currentIdx)
  else
    match action with
    | some a => if dataNext ≠ 0 then (some a, currentIdx + 1) else (none, currentIdx)
    | none => (none, currentIdx)

/-- The `while (currentIdx < bufLen)` loop of `parse_rx_data`, run for at most
`fuel` passes: the actions handed to `perform_action`, in order. -/
def parse_rx_loop (gKeymapRoot : List KEYMAP_NODE_T) (buf : Nat → Nat) (bufLen : Nat) :
    Nat → Nat → List String
  | 0, _ => []
  | fuel + 1, currentIdx =>
    if currentIdx < bufLen then
      let r := parse_rx_step gKeymapRoot buf currentIdx
      r.1.toList ++ parse_rx_loop gKeymapRoot buf bufLen fuel r.2
    else
      []

/-- The loop of `parse_rx_data` resumed with the cursor at `currentIdx`.  Every
pass moves the cursor forward, so `bufLen - currentIdx` passes are enough
(`parse_rx_loop_fuel`). -/
def parse_rx_from (gKeymapRoot : List KEYMAP_NODE_T) (buf : Nat → Nat) (bufLen : Nat)
    (currentIdx : Nat) : List String :=
  parse_rx_loop gKeymapRoot buf bufLen (bufLen - currentIdx) currentIdx

/-- The function `parse_rx_data`: the actions it hands to `perform_action`, in
order, for the batch of `bufLen` bytes stored at `buf`. -/
def parse_rx_data (gKeymapRoot : List KEYMAP_NODE_T) (buf : Nat → Nat) (bufLen : Nat) :
    List String :=
  parse_rx_from gKeymapRoot buf bufLen 0

/-- The memory holding the bytes `bytes` followed by zero bytes. -/
def bytes_at (bytes : List Nat) : Nat → Nat :=
  fun i => bytes.getD i 0

/-! ## Running code that can leave defined behaviour -/

/-- The ways the embedded code leaves defined behaviour. -/
inductive Fault where
  /-- A store to `array[index]` with `index` at or past the end of the array. -/
  | out_of_bounds_write (index : Nat)
  /-- A `NULL` pointer handed to a library function that reads through it. -/
  | null_dereference
deriving DecidableEq, Repr

/-- The outcome of running a piece of code: it completes with a result, it
leaves defined behaviour, or the embedding ran out of passes (which the
callers below never let happen, see `perform_action_loop_spec`). -/
inductive Outcome (α : Type) where
  | ok (result : α)
  | fault (f : Fault)
  | out_of_fuel
deriving DecidableEq, Repr

/-- Apply a function to the result of a completed run. -/
def Outcome.map {α β : Type} (f : α → β) : Outcome α → Outcome β
  | .ok a => .ok (f a)
  | .fault e => .fault e
  | .out_of_fuel => .out_of_fuel

/-! ## The key table -/

/-- An entry of the key table (`struct supported_keys_t`). -/
structure supported_keys_t where
  ascii : String
  keyCode : Int
deriving DecidableEq, Repr

/-! The key codes are those of `<linux/input-event-codes.h>`, which the source
takes from `<linux/uinput.h>`. -/

def KEY_ESC : Int := 1
def KEY_1 : Int := 2
def KEY_2 : Int := 3
def KEY_3 : Int := 4
def KEY_4 : Int := 5
def KEY_5 : Int := 6
def KEY_6 : Int := 7
def KEY_7 : Int := 8
def KEY_8 : Int := 9
def KEY_9 : Int := 10
def KEY_0 : Int := 11
def KEY_MINUS : Int := 12
def KEY_EQUAL : Int := 13
def KEY_BACKSPACE : Int := 14
def KEY_Q : Int := 16
def KEY_W : Int := 17
def KEY_E : Int := 18
def KEY_R : Int := 19
def KEY_T : Int := 20
def KEY_Y : Int := 21
def KEY_U : Int := 22
def KEY_I : Int := 23
def KEY_O : Int := 24
def KEY_P : Int := 25
def KEY_ENTER : Int := 28
def KEY_LEFTCTRL : Int := 29
def KEY_A : Int := 30
def KEY_S : Int := 31
def KEY_D : Int := 32
def KEY_F : Int := 33
def KEY_G : Int := 34
def KEY_H : Int := 35
def KEY_J : Int := 36
def KEY_K : Int := 37
def KEY_L : Int := 38
def KEY_LEFTSHIFT : Int := 42
def KEY_Z : Int := 44
def KEY_X : Int := 45
def KEY_C : Int := 46
def KEY_V : Int := 47
def KEY_B : Int := 48
def KEY_N : Int := 49
def KEY_M : Int := 50
def KEY_LEFTALT : Int := 56
def KEY_SPACE : Int := 57
def KEY_F1 : Int := 59
def KEY_F2 : Int := 60
def KEY_F3 : Int := 61
def KEY_F4 : Int := 62
def KEY_F5 : Int := 63
def KEY_F6 : Int := 64
def KEY_F7 : Int := 65
def KEY_F8 : Int := 66
def KEY_F9 : Int := 67
def KEY_F10 : Int := 68
def KEY_F11 : Int := 87
def KEY_F12 : Int := 88
def KEY_HOME : Int := 102
def KEY_UP : Int := 103
def KEY_PAGEUP : Int := 104
def KEY_LEFT : Int := 105
def KEY_RIGHT : Int := 106
def KEY_DOWN : Int := 108
def KEY_PAGEDOWN : Int := 109
def KEY_DELETE : Int := 111

/-- The table `SUPPORTED_KEYS_ARRAY`, in the order of the source. -/
def SUPPORTED_KEYS_ARRAY : List supported_keys_t := [
    ⟨"A", KEY_A⟩,
    ⟨"B", KEY_B⟩,
    ⟨"C", KEY_C⟩,
    ⟨"D", KEY_D⟩,
    ⟨"E", KEY_E⟩,
    ⟨"F", KEY_F⟩,
    ⟨"G", KEY_G⟩,
    ⟨"H", KEY_H⟩,
    ⟨"I", KEY_I⟩,
    ⟨"J", KEY_J⟩,
    ⟨"K", KEY_K⟩,
    ⟨"L", KEY_L⟩,
    ⟨"M", KEY_M⟩,
    ⟨"N", KEY_N⟩,
    ⟨"O", KEY_O⟩,
    ⟨"P", KEY_P⟩,
    ⟨"Q", KEY_Q⟩,
    ⟨"R", KEY_R⟩,
    ⟨"S", KEY_S⟩,
    ⟨"T", KEY_T⟩,
    ⟨"U", KEY_U⟩,
    ⟨"V", KEY_V⟩,
    ⟨"W", KEY_W⟩,
    ⟨"X", KEY_X⟩,
    ⟨"Y", KEY_Y⟩,
    ⟨"Z", KEY_Z⟩,
    ⟨"1", KEY_1⟩,
    ⟨"2", KEY_2⟩,
    ⟨"3", KEY_3⟩,
    ⟨"4", KEY_4⟩,
    ⟨"5", KEY_5⟩,
    ⟨"6", KEY_6⟩,
    ⟨"7", KEY_7⟩,
    ⟨"8", KEY_8⟩,
    ⟨"9", KEY_9⟩,
    ⟨"0", KEY_0⟩,
    ⟨"F1", KEY_F1⟩,
    ⟨"F2", KEY_F2⟩,
    ⟨"F3", KEY_F3⟩,
    ⟨"F4", KEY_F4⟩,
    ⟨"F5", KEY_F5⟩,
    ⟨"F6", KEY_F6⟩,
    ⟨"F7", KEY_F7⟩,
    ⟨"F8", KEY_F8⟩,
    ⟨"F9", KEY_F9⟩,
    ⟨"F10", KEY_F10⟩,
    ⟨"F11", KEY_F11⟩,
    ⟨"F12", KEY_F12⟩,
    ⟨"ESC", KEY_ESC⟩,
    ⟨"ALT", KEY_LEFTALT⟩,
    ⟨"CTRL", KEY_LEFTCTRL⟩,
    ⟨"SHIFT", KEY_LEFTSHIFT⟩,
    ⟨"BACKSPACE", KEY_BACKSPACE⟩,
    ⟨" ", KEY_SPACE⟩,
    ⟨"SPACE", KEY_SPACE⟩,
    ⟨"PG_UP", KEY_PAGEUP⟩,
    ⟨"PG_DOWN", KEY_PAGEDOWN⟩,
    ⟨"UP", KEY_UP⟩,
    ⟨"DOWN", KEY_DOWN⟩,
    ⟨"LEFT", KEY_LEFT⟩,
    ⟨"RIGHT", KEY_RIGHT⟩,
    ⟨"DEL", KEY_DELETE⟩,
    ⟨"RETURN", KEY_ENTER⟩,
    ⟨"MINUS", KEY_MINUS⟩,
    ⟨"EQUAL", KEY_EQUAL⟩,
    ⟨"HOME", KEY_HOME⟩]

/-- The `for` loop of `str_key_to_event` over the entries not yet visited:
`strcmp(...) == 0` is equality of the two strings, the first hit ends the loop
(`break`) and `result` keeps its initial `-1` when there is none. -/
def str_key_to_event_loop (key : List Char) : List supported_keys_t → Int
  | [] => -1
  | entry :: rest =>
    if entry.ascii.toList = key then entry.keyCode else str_key_to_event_loop key rest

/-- The function `str_key_to_event`. -/
def str_key_to_event (key : List Char) : Int :=
  str_key_to_event_loop key SUPPORTED_KEYS_ARRAY

/-! ## The key emitter -/

def EV_SYN : Nat := 0
def EV_KEY : Nat := 1
def SYN_REPORT : Nat := 0

/-- The fields of `struct input_event` the emitter sets to something else than
zero: `type` and `code` are `__u16`, `value` is `__s32`. -/
structure input_event where
  type : Nat
  code : Nat
  value : Int
deriving DecidableEq, Repr

/-- The value a `char` holds after an `int` is stored in it: `char` is a signed
8-bit integer (the x86 Linux ABI) and the store wraps modulo 256. -/
def to_char (x : Int) : Int :=
  (x + 128) % 256 - 128

/-- The value a `__u16` holds after a `char` is stored in it. -/
def to_u16 (c : Int) : Nat :=
  (c % 65536).toNat

/-- The synchronization event `reportEvt` of `emit_key`. -/
def reportEvt : input_event :=
  { type := EV_SYN, code := SYN_REPORT, value := 0 }

/-- The inner `for` loop of `emit_key` with `remaining = keyCnt - inputKeyIdx`
passes left: one `write` of a key event for every index. -/
def emit_key_inner (keys : Nat → Int) (emitValue : Int) : Nat → Nat → List input_event
  | 0, _ => []
  | remaining + 1, inputKeyIdx =>
    { type := EV_KEY, code := to_u16 (keys inputKeyIdx), value := emitValue } ::
      emit_key_inner keys emitValue remaining (inputKeyIdx + 1)

/-- One pass of the outer loop of `emit_key`: the key events, then `reportEvt`. -/
def emit_key_pass (keys : Nat → Int) (keyCnt : Nat) (emitValue : Int) : List input_event :=
  emit_key_inner keys emitValue keyCnt 0 ++ [reportEvt]

/-- The function `emit_key`: the events written to the keyboard device, in
order.  The outer loop runs for `emitValue = 1` and then for `emitValue = 0`. -/
def emit_key (keys : Nat → Int) (keyCnt : Nat) : List input_event :=
  emit_key_pass keys keyCnt 1 ++ emit_key_pass keys keyCnt 0

/-- The key-down event of the key code held by the char `c`. -/
def key_down (c : Int) : input_event :=
  { type := EV_KEY, code := to_u16 c, value := 1 }

/-- The key-up event of the key code held by the char `c`. -/
def key_up (c : Int) : input_event :=
  { type := EV_KEY, code := to_u16 c, value := 0 }

/-- The memory holding the chars `chars` followed by zero chars. -/
def chars_at (chars : List Int) : Nat → Int :=
  fun i => chars.getD i 0

/-! ## The chord resolver -/

/-- The libc function `strtok` on the string `s`, the argument of a first call
or the position saved by the previous call: `NULL` when only delimiters are
left, otherwise the next token and the position saved for the next call (past
the delimiter that ended the token, if one did). -/
def strtok (delim : List Char) (s : List Char) : Option (List Char × List Char) :=
  match s.dropWhile (fun c => decide (c ∈ delim)) with
  | [] => none
  | c :: rest =>
    some ((c :: rest).takeWhile (fun c => decide (c ∉ delim)),
      ((c :: rest).dropWhile (fun c => decide (c ∉ delim))).drop 1)

/-- The `while (next_key != NULL)` loop of `perform_action`, entered with the
position `save` from which `strtok` produces `next_key`, the array `events` and
the count `event_cnt`; `events[event_cnt++] = next_evt` is a fault when
`event_cnt` is not an index of `events`. -/
def perform_action_loop :
    Nat → List Char → List Int → Nat → Outcome (List Int × Nat)
  | 0, _, _, _ => .out_of_fuel
  | fuel + 1, save, events, event_cnt =>
    match strtok ['+'] save with
    | none => .ok (events, event_cnt)
    | some (next_key, save) =>
      let next_evt : Int := to_char (str_key_to_event next_key)
      if next_evt ≠ -1 then
        if event_cnt < events.length then
          perform_action_loop fuel save (events.set event_cnt next_evt) (event_cnt + 1)
        else
          .fault (.out_of_bounds_write event_cnt)
      else
        perform_action_loop fuel save events event_cnt

/-- The part of `perform_action` before the call of `emit_key`: the array
`events` (`char events[10] = {0}`) and `event_cnt` as they are passed on.  Every
pass of the loop but the last consumes a character of the action, so
`action.length + 1` passes are enough. -/
def perform_action_args (action : String) : Outcome (List Int × Nat) :=
  perform_action_loop (action.toList.length + 1) action.toList (List.replicate 10 0) 0

/-- The chord `perform_action` passes to `emit_key`: the first `event_cnt`
elements of `events`. -/
def perform_action_chord (action : String) : Outcome (List Int) :=
  (perform_action_args action).map (fun r => r.1.take r.2)

/-- The function `perform_action`: the events written to the keyboard device. -/
def perform_action (action : String) : Outcome (List input_event) :=
  (perform_action_args action).map (fun r => emit_key (chars_at r.1) r.2)

/-- The chord an action string stands for, in the words of the specification:
the string is split on `+`, each token is resolved on its own with
`str_key_to_event`, and the tokens that do not resolve are dropped. -/
def spec_parse_action (action : List Char) : List Int :=
  ((action.splitOn '+').map str_key_to_event).filter (fun code => decide (code ≠ -1))

/-- The stores `events[event_cnt++] = code` for the codes of a list, in order:
the array and the count at the end, or the fault of the first store past the
end of the array. -/
def store_codes : List Int → List Int → Nat → Outcome (List Int × Nat)
  | [], events, event_cnt => .ok (events, event_cnt)
  | code :: codes, events, event_cnt =>
    if event_cnt < events.length then
      store_codes codes (events.set event_cnt code) (event_cnt + 1)
    else
      .fault (.out_of_bounds_write event_cnt)

/-! ## The transport filter and one pass of the event loop -/

def MIDI_CMD_COMMON_CLOCK : Nat := 0xf8
def MIDI_CMD_COMMON_SENSING : Nat := 0xfe
def POLLIN : Nat := 0x001
def POLLERR : Nat := 0x008
def POLLHUP : Nat := 0x010
def EAGAIN : Int := 11

/-- The memory `buf` after `buf[index] = value`. -/
def store (buf : Nat → Nat) (index value : Nat) : Nat → Nat :=
  fun j => if j = index then value else buf j

/-- The memory `buf` after `bytes` have been stored from index 0 on. -/
def store_bytes (buf : Nat → Nat) (bytes : List Nat) : Nat → Nat :=
  fun j => if j < bytes.length then bytes.getD j 0 else buf j

/-- The first `n` bytes stored at `buf`. -/
def read_bytes (buf : Nat → Nat) (n : Nat) : List Nat :=
  (List.range n).map buf

/-- The bytes the transport filter removes, in the words of the specification:
the clock byte `0xF8` when clock bytes are ignored and the active-sensing byte
`0xFE` when active-sensing bytes are ignored. -/
def spec_removed (ignore_clock ignore_active_sensing : Bool) (b : Nat) : Bool :=
  (b == 0xF8 && ignore_clock) || (b == 0xFE && ignore_active_sensing)

/-- The condition under which the filter loop of `main` keeps the byte `b`. -/
def filter_keeps (ignore_clock ignore_active_sensing : Bool) (b : Nat) : Bool :=
  (b != MIDI_CMD_COMMON_CLOCK && b != MIDI_CMD_COMMON_SENSING) ||
  (b == MIDI_CMD_COMMON_CLOCK && !ignore_clock) ||
  (b == MIDI_CMD_COMMON_SENSING && !ignore_active_sensing)

/-- The loop `for (i = 0; i < err; ++i) if (...) buf[length++] = buf[i];` of
`main` with `remaining = err - i` passes left: the buffer and `length` at the
end of the loop. -/
def filter_loop (ignore_clock ignore_active_sensing : Bool) :
    Nat → Nat → (Nat → Nat) → Nat → (Nat → Nat) × Nat
  | 0, _, buf, length => (buf, length)
  | remaining + 1, i, buf, length =>
    if filter_keeps ignore_clock ignore_active_sensing (buf i) then
      filter_loop ignore_clock ignore_active_sensing remaining (i + 1)
        (store buf length (buf i)) (length + 1)
    else
      filter_loop ignore_clock ignore_active_sensing remaining (i + 1) buf length

/-- The in-place filter of `main` on the `err` bytes a read left in `buf`,
entered with `length = 0`. -/
def transport_filter (ignore_clock ignore_active_sensing : Bool) (buf : Nat → Nat)
    (err : Nat) : (Nat → Nat) × Nat :=
  filter_loop ignore_clock ignore_active_sensing err 0 buf 0

/-- What `main` has fixed before it enters the event loop: whether
`timeout > 0`, the `it_value` of `itimerspec` computed from `timeout`
(seconds, nanoseconds), and the two filter flags. -/
structure Config where
  timeout_pos : Bool
  itimerspec : Int × Int
  ignore_clock : Bool
  ignore_active_sensing : Bool
deriving DecidableEq, Repr

/-- The result of `snd_rawmidi_read(input, buf, sizeof(buf))`: a failure
returning `-errno`, or the bytes it stored into `buf`. -/
inductive read_result where
  | failed (errno : Nat)
  | received (bytes : List Nat)
deriving DecidableEq, Repr

/-- What the environment answers during one pass of the `for (;;)` loop of
`main`: the flag `stop` as the pass reads it, the return value of `poll` and
whether `errno == EINTR`, the return value and the `revents` of
`snd_rawmidi_poll_descriptors_revents`, `pfds[0].revents` (the timer), the
result of the read, the return value of `timerfd_settime`, and the contents of
the array `buf` when the pass starts. -/
structure Wake where
  stop : Bool
  poll_err : Int
  poll_eintr : Bool
  revents_err : Int
  revents : Nat
  timer_revents : Nat
  read : read_result
  settime_err : Int
  buf : Nat → Nat

/-- The calls of one pass of the event loop that this development observes. -/
inductive Effect where
  /-- A call of `snd_rawmidi_read`. -/
  | snd_rawmidi_read
  /-- A call of `parse_rx_data` on a batch of `length` bytes, with the actions
  it handed to `perform_action`. -/
  | parse_rx_data (length : Nat) (dispatched : List String)
  /-- A call of `timerfd_settime` arming the timer with `it_value`. -/
  | timerfd_settime (it_value : Int × Int)
  /-- A call of `error`. -/
  | error (message : String)
deriving DecidableEq, Repr

/-- How a pass of the event loop ends: with a `continue` (or at the end of the
body) into the next `poll`, or with a `break` into the teardown. -/
inductive Control where
  | next_pass
  | leave_loop
deriving DecidableEq, Repr

/-- One pass of the `for (;;)` loop of `main`: the observed calls, in order,
and how the pass ends.  A read stores at most `sizeof(buf) = 256` bytes. -/
def main_loop_pass (cfg : Config) (gKeymapRoot : List KEYMAP_NODE_T) (w : Wake) :
    List Effect × Control :=
  if w.stop ∨ (w.poll_err < 0 ∧ w.poll_eintr) then
    ([], .leave_loop)
  else if w.poll_err < 0 then
    ([.error "poll failed"], .leave_loop)
  else if w.revents_err < 0 then
    ([.error "cannot get poll events"], .leave_loop)
  else if w.revents &&& (POLLERR ||| POLLHUP) ≠ 0 then
    ([], .leave_loop)
  else if w.revents &&& POLLIN = 0 then
    if w.timer_revents &&& POLLIN ≠ 0 then ([], .leave_loop) else ([], .next_pass)
  else
    let err : Int :=
      match w.read with
      | .failed errno => -(errno : Int)
      | .received bytes => ((bytes.take 256).length : Int)
    let buf : Nat → Nat :=
      match w.read with
      | .failed _ => w.buf
      | .received bytes => store_bytes w.buf (bytes.take 256)
    if err = -EAGAIN then
      ([.snd_rawmidi_read], .next_pass)
    else if err < 0 then
      ([.snd_rawmidi_read, .error "cannot read from port"], .leave_loop)
    else
      let filtered := transport_filter cfg.ignore_clock cfg.ignore_active_sensing buf err.toNat
      let length := filtered.2
      if length = 0 then
        ([.snd_rawmidi_read], .next_pass)
      else
        let parse := Effect.parse_rx_data length (parse_rx_data gKeymapRoot filtered.1 length)
        if cfg.timeout_pos then
          if w.settime_err < 0 then
            ([.snd_rawmidi_read, parse, .timerfd_settime cfg.itimerspec,
              .error "cannot set timer"], .leave_loop)
          else
            ([.snd_rawmidi_read, parse, .timerfd_settime cfg.itimerspec], .next_pass)
        else
          ([.snd_rawmidi_read, parse], .next_pass)

/-- The `for (;;)` loop of `main` on the wakes the environment delivers, one
for each pass: the observed calls of the passes, in order, up to and including
the pass that ends with `break`.  A list of wakes that runs out stands for a
loop that waits in `poll`. -/
def main_loop (cfg : Config) (gKeymapRoot : List KEYMAP_NODE_T) : List Wake → List Effect
  | [] => []
  | w :: wakes =>
    match (main_loop_pass cfg gKeymapRoot w).2 with
    | .leave_loop => (main_loop_pass cfg gKeymapRoot w).1
    | .next_pass => (main_loop_pass cfg gKeymapRoot w).1 ++ main_loop cfg gKeymapRoot wakes

/-! ## Loading the keymap -/

/-- The characters `fgets` takes from the stream when it may still store `room`
of them: up to and including the first newline. -/
def fgets_chars : Nat → List Char → List Char × List Char
  | 0, stream => ([], stream)
  | _ + 1, [] => ([], [])
  | room + 1, c :: stream =>
    if c = '\n' then
      ([c], stream)
    else
      ((fgets_chars room stream).1.cons c, (fgets_chars room stream).2)

/-- The libc function `fgets(line, size, stream)` on a stream without NUL
characters: `NULL` at the end of the stream, otherwise the line stored (at
most `size - 1` characters) and the rest of the stream. -/
def fgets (size : Nat) (stream : List Char) : Option (List Char × List Char) :=
  match stream with
  | [] => none
  | _ :: _ => some (fgets_chars (size - 1) stream)

/-- The body of the `while` loop of `load_keymap` for one line returned by
`fgets`: `none` when the line adds no node (`continue`), otherwise the node it
appends.  The libc function `strtol(_, NULL, 0)` is the parameter `strtol`;
the result of the first `strtok` is handed to it unchecked, which is a fault
when that result is `NULL`.  The store to `midi_key` keeps the low 8 bits. -/
def load_keymap_line (strtol : List Char → Int) (line : List Char) :
    Outcome (Option KEYMAP_NODE_T) :=
  let line := if line.getLast? = some '\n' then line.dropLast else line
  if line.head? = some '#' then
    .ok none
  else
    match strtok [','] line with
    | none => .fault .null_dereference
    | some (token, save) =>
      let midi_key : Nat := (strtol token % 256).toNat
      match strtok [','] save with
      | none => .ok none
      | some (action, _) =>
        if midi_key = 0 then .ok none else .ok (some { key := midi_key, action := String.mk action })

/-- The `while (fgets(...) != NULL)` loop of `load_keymap`, entered with the
rest of the stream and the list built so far; a node is linked in at the end
of the list. -/
def load_keymap_loop (strtol : List Char → Int) :
    Nat → List Char → List KEYMAP_NODE_T → Outcome (List KEYMAP_NODE_T)
  | 0, _, _ => .out_of_fuel
  | fuel + 1, stream, keymap =>
    match fgets 160 stream with
    | none => .ok keymap
    | some (line, stream) =>
      match load_keymap_line strtol line with
      | .ok none => load_keymap_loop strtol fuel stream keymap
      | .ok (some nextNode) => load_keymap_loop strtol fuel stream (keymap ++ [nextNode])
      | .fault f => .fault f
      | .out_of_fuel => .out_of_fuel

/-- The function `load_keymap` on the contents of the keymap file (`none` when
`fopen` fails): the value returned and the list left at `gKeymapRoot`, which is
empty before the call.  Every pass of the loop but the last consumes a
character of the stream, so `length + 1` passes are enough. -/
def load_keymap (strtol : List Char → Int) (km_file : Option (List Char)) :
    Outcome (Int × List KEYMAP_NODE_T) :=
  match km_file with
  | none => .ok (-1, [])
  | some stream =>
    (load_keymap_loop strtol (stream.length + 1) stream []).map (fun keymap => (0, keymap))

/-! ## Lemmas on the keymap -/

theorem keymap_get_action_loop_eq (key : Nat) (rest : List KEYMAP_NODE_T) :
    ∀ node : KEYMAP_NODE_T,
      keymap_get_action_loop key node rest none =
        ((node :: rest).find? (fun e => decide (e.key = key))).map KEYMAP_NODE_T.action := by
  induction rest with
  | nil =>
    intro node
    by_cases h : node.key = key <;> simp [keymap_get_action_loop, List.find?, h]
  | cons next rest ih =>
    intro node
    by_cases h : node.key = key
    · simp [keymap_get_action_loop, List.find?, h]
    · have := ih next
      simp only [keymap_get_action_loop, h, if_false]
      rw [this]
      simp [List.find?, h]

theorem keymap_get_action_eq_find (km : List KEYMAP_NODE_T) (key : Nat) :
    keymap_get_action km key =
      (km.find? (fun e => decide (e.key = key))).map KEYMAP_NODE_T.action := by
  cases km with
  | nil => rfl
  | cons root rest => exact keymap_get_action_loop_eq key rest root

/-! ## Lemmas on the matcher -/

theorem parse_rx_step_cursor (km : List KEYMAP_NODE_T) (buf : Nat → Nat) (i : Nat) :
    i + 1 ≤ (parse_rx_step km buf i).2 := by
  unfold parse_rx_step
  simp only
  split
  · exact le_refl _
  · split
    · split <;> simp
    · exact le_refl _

/-- Fuel beyond `bufLen - currentIdx` does not change the result of the loop. -/
theorem parse_rx_loop_fuel (km : List KEYMAP_NODE_T) (buf : Nat → Nat) (bufLen : Nat) :
    ∀ (fuel i : Nat), bufLen - i ≤ fuel →
      parse_rx_loop km buf bufLen fuel i = parse_rx_from km buf bufLen i := by
  intro fuel
  induction fuel using Nat.strong_induction_on with
  | _ fuel ih =>
    intro i hi
    unfold parse_rx_from
    by_cases hlt : i < bufLen
    · obtain ⟨f, rfl⟩ : ∃ f, fuel = f + 1 := ⟨fuel - 1, by omega⟩
      obtain ⟨g, hg⟩ : ∃ g, bufLen - i = g + 1 := ⟨bufLen - i - 1, by omega⟩
      have hc := parse_rx_step_cursor km buf i
      rw [hg]
      simp only [parse_rx_loop, hlt, if_true]
      rw [ih f (by omega) _ (by omega)]
      by_cases hg0 : bufLen - (parse_rx_step km buf i).2 ≤ g
      · have : ∀ m, m ≤ g → bufLen - (parse_rx_step km buf i).2 ≤ m →
            parse_rx_loop km buf bufLen m (parse_rx_step km buf i).2 =
              parse_rx_from km buf bufLen (parse_rx_step km buf i).2 :=
          fun m hm h => ih m (by omega) _ h
        rw [this g (le_refl _) hg0]
      · omega
    · have h0 : bufLen - i = 0 := by omega
      rw [h0]
      cases fuel with
      | zero => rfl
      | succ f => simp [parse_rx_loop, hlt]

/-- Unfolding of the loop at a cursor inside the batch. -/
theorem parse_rx_from_step (km : List KEYMAP_NODE_T) (buf : Nat → Nat) (bufLen i : Nat)
    (hi : i < bufLen) :
    parse_rx_from km buf bufLen i =
      (parse_rx_step km buf i).1.toList ++
        parse_rx_from km buf bufLen (parse_rx_step km buf i).2 := by
  have hc := parse_rx_step_cursor km buf i
  obtain ⟨g, hg⟩ : ∃ g, bufLen - i = g + 1 := ⟨bufLen - i - 1, by omega⟩
  conv_lhs => unfold parse_rx_from
  rw [hg]
  simp only [parse_rx_loop, hi, if_true]
  rw [parse_rx_loop_fuel km buf bufLen g _ (by omega)]

/-- The loop is over once the cursor is at or past `bufLen`. -/
theorem parse_rx_from_done (km : List KEYMAP_NODE_T) (buf : Nat → Nat) (bufLen i : Nat)
    (hi : bufLen ≤ i) : parse_rx_from km buf bufLen i = [] := by
  unfold parse_rx_from
  have h0 : bufLen - i = 0 := by omega
  rw [h0]
  rfl

/-- The pass at the last byte of a batch: a mapped trigger below `0x80` is
dispatched exactly when the byte stored behind the batch is not zero. -/
theorem parse_rx_from_last (km : List KEYMAP_NODE_T) (buf : Nat → Nat) (n : Nat) (a : String)
    (hv : buf n < 0x80) (ha : keymap_get_action km (buf n) = some a) :
    parse_rx_from km buf (n + 1) n = if buf (n + 1) ≠ 0 then [a] else [] := by
  have hv' : ¬ buf n ≥ 0x80 := by omega
  rw [parse_rx_from_step km buf (n + 1) n (Nat.lt_succ_self n)]
  by_cases hz : buf (n + 1) = 0
  · have hs : parse_rx_step km buf n = (none, n + 1) := by
      simp [parse_rx_step, hv', ha, hz]
    rw [hs, parse_rx_from_done km buf (n + 1) (n + 1) (le_refl _)]
    simp [hz]
  · have hs : parse_rx_step km buf n = (some a, n + 2) := by
      simp [parse_rx_step, hv', ha, hz]
    rw [hs, parse_rx_from_done km buf (n + 1) (n + 2) (by omega)]
    simp [hz]

/-! ## The claims on the keymap and the matcher -/

/-- C1. Matcher step rule of `parse_rx_data`: at a cursor `i` whose byte is
below `0x80` and whose following byte lies inside the batch, the pass hands
`keymap_get_action (buf i)` to `perform_action` exactly when the lookup finds an
action and the following byte is not zero, and the loop then resumes at `i + 2`;
otherwise the pass dispatches nothing and the loop resumes at `i + 1`. -/
theorem parse_rx_data_step_rule (km : List KEYMAP_NODE_T) (buf : Nat → Nat) (bufLen i : Nat)
    (hv : buf i < 0x80) (hn : i + 1 < bufLen) :
    (∀ a, keymap_get_action km (buf i) = some a → buf (i + 1) ≠ 0 →
        parse_rx_step km buf i = (some a, i + 2) ∧
        parse_rx_from km buf bufLen i = a :: parse_rx_from km buf bufLen (i + 2)) ∧
    ((keymap_get_action km (buf i) = none ∨ buf (i + 1) = 0) →
        parse_rx_step km buf i = (none, i + 1) ∧
        parse_rx_from km buf bufLen i = parse_rx_from km buf bufLen (i + 1)) := by
  have hlt : i < bufLen := by omega
  have hv' : ¬ buf i ≥ 0x80 := by omega
  refine ⟨?_, ?_⟩
  · intro a ha hz
    have hs : parse_rx_step km buf i = (some a, i + 2) := by
      simp [parse_rx_step, hv', ha, hz]
    refine ⟨hs, ?_⟩
    rw [parse_rx_from_step km buf bufLen i hlt, hs]
    rfl
  · intro h
    have hs : parse_rx_step km buf i = (none, i + 1) := by
      rcases h with h | h
      · simp [parse_rx_step, hv', h]
      · cases hk : keymap_get_action km (buf i) <;> simp [parse_rx_step, hv', h, hk]
    refine ⟨hs, ?_⟩
    rw [parse_rx_from_step km buf bufLen i hlt, hs]
    rfl

/-- Witness of C1: the batch `[0x3C, 0x40, 0x3D, 0x00]` with `0x3C` mapped to
`"A"` and `0x3D` mapped to `"B"`.  The pass at cursor 0 dispatches `"A"` and
moves to cursor 2, the pass at cursor 2 dispatches nothing and moves to cursor
3, and the whole run dispatches `"A"` and nothing else, whatever the buffer
holds behind the batch. -/
theorem parse_rx_data_step_rule_witness :
    parse_rx_step [⟨0x3C, "A"⟩, ⟨0x3D, "B"⟩] (bytes_at [0x3C, 0x40, 0x3D, 0x00]) 0
        = (some "A", 2) ∧
    parse_rx_step [⟨0x3C, "A"⟩, ⟨0x3D, "B"⟩] (bytes_at [0x3C, 0x40, 0x3D, 0x00]) 2
        = (none, 3) ∧
    parse_rx_data [⟨0x3C, "A"⟩, ⟨0x3D, "B"⟩] (bytes_at [0x3C, 0x40, 0x3D, 0x00]) 4 = ["A"] ∧
    (∀ behind : Nat → Nat,
      parse_rx_data [⟨0x3C, "A"⟩, ⟨0x3D, "B"⟩]
        (store_bytes behind [0x3C, 0x40, 0x3D, 0x00]) 4 = ["A"]) := by
  refine ⟨?_, ?_, by decide, ?_⟩
  · exact ((parse_rx_data_step_rule [⟨0x3C, "A"⟩, ⟨0x3D, "B"⟩]
      (bytes_at [0x3C, 0x40, 0x3D, 0x00]) 4 0 (by decide) (by decide)).1 "A"
        (by decide) (by decide)).1
  · exact ((parse_rx_data_step_rule [⟨0x3C, "A"⟩, ⟨0x3D, "B"⟩]
      (bytes_at [0x3C, 0x40, 0x3D, 0x00]) 4 2 (by decide) (by decide)).2
        (Or.inr (by decide))).1
  · intro behind
    have b0 : store_bytes behind [0x3C, 0x40, 0x3D, 0x00] 0 = 0x3C := rfl
    have b1 : store_bytes behind [0x3C, 0x40, 0x3D, 0x00] 1 = 0x40 := rfl
    have b2 : store_bytes behind [0x3C, 0x40, 0x3D, 0x00] 2 = 0x3D := rfl
    have b3 : store_bytes behind [0x3C, 0x40, 0x3D, 0x00] 3 = 0x00 := rfl
    have h0 := ((parse_rx_data_step_rule [⟨0x3C, "A"⟩, ⟨0x3D, "B"⟩]
      (store_bytes behind [0x3C, 0x40, 0x3D, 0x00]) 4 0 (by rw [b0]; decide) (by decide)).1 "A"
        (by rw [b0]; decide) (by rw [b1]; decide)).2
    have h2 := ((parse_rx_data_step_rule [⟨0x3C, "A"⟩, ⟨0x3D, "B"⟩]
      (store_bytes behind [0x3C, 0x40, 0x3D, 0x00]) 4 2 (by rw [b2]; decide) (by decide)).2
        (Or.inr b3)).2
    have h3 : parse_rx_step [⟨0x3C, "A"⟩, ⟨0x3D, "B"⟩]
        (store_bytes behind [0x3C, 0x40, 0x3D, 0x00]) 3 = (none, 4) := by
      have hk : keymap_get_action [⟨0x3C, "A"⟩, ⟨0x3D, "B"⟩] 0 = none := by decide
      simp [parse_rx_step, b3, hk]
    unfold parse_rx_data
    rw [h0, h2, parse_rx_from_step _ _ 4 3 (by decide), h3,
      parse_rx_from_done _ _ 4 4 (le_refl _)]
    rfl

/-- C2, the code at a failing input.  A read of the two bytes `0x3C 0xF8` is
filtered to the batch `0x3C` of length 1, with `0xF8` left behind it in the
buffer.  The pass of `parse_rx_data` at the last byte of the batch reads the
byte behind the batch as its lookahead and dispatches `"A"`; the same batch
with a zero byte behind it dispatches nothing. -/
theorem parse_rx_data_reads_behind_batch :
    (transport_filter true true (store_bytes (fun _ => 0) [0x3C, 0xF8]) 2).2 = 1 ∧
    (transport_filter true true (store_bytes (fun _ => 0) [0x3C, 0xF8]) 2).1 0 = 0x3C ∧
    (transport_filter true true (store_bytes (fun _ => 0) [0x3C, 0xF8]) 2).1 1 = 0xF8 ∧
    parse_rx_data [⟨0x3C, "A"⟩]
      (transport_filter true true (store_bytes (fun _ => 0) [0x3C, 0xF8]) 2).1 1 = ["A"] ∧
    main_loop_pass ⟨false, (0, 0), true, true⟩ [⟨0x3C, "A"⟩]
      ⟨false, 1, false, 0, POLLIN, 0, .received [0x3C, 0xF8], 0, fun _ => 0⟩
      = ([.snd_rawmidi_read, .parse_rx_data 1 ["A"]], .next_pass) ∧
    parse_rx_data [⟨0x3C, "A"⟩] (bytes_at [0x3C, 0x00]) 1 = [] := by
  decide

/-- C3. First-match-wins lookup: `keymap_get_action` returns the action of the
first node, in list order, whose trigger is `t`, whatever nodes follow it, and
returns `NULL` exactly when no node has trigger `t` (the empty keymap
included). -/
theorem keymap_get_action_first_match (km : List KEYMAP_NODE_T) (t : Nat) :
    keymap_get_action km t =
      (km.find? (fun e => decide (e.key = t))).map KEYMAP_NODE_T.action ∧
    (keymap_get_action km t = none ↔ ∀ e ∈ km, e.key ≠ t) ∧
    (∀ (before : List KEYMAP_NODE_T) (e : KEYMAP_NODE_T) (after : List KEYMAP_NODE_T),
      km = before ++ e :: after → (∀ x ∈ before, x.key ≠ t) → e.key = t →
        keymap_get_action km t = some e.action) := by
  refine ⟨keymap_get_action_eq_find km t, ?_, ?_⟩
  · rw [keymap_get_action_eq_find]
    simp [List.find?_eq_none]
  · intro before e after hkm hbefore he
    rw [keymap_get_action_eq_find, hkm, List.find?_append]
    have h1 : before.find? (fun e => decide (e.key = t)) = none := by
      simp [List.find?_eq_none]
      exact hbefore
    simp [h1, List.find?, he]

/-- Witness of C3: with two nodes for trigger `0x3C` the first one wins, and a
trigger without node, or any trigger in the empty keymap, is not found. -/
theorem keymap_get_action_first_match_witness :
    keymap_get_action [⟨0x3B, "Z"⟩, ⟨0x3C, "A"⟩, ⟨0x3C, "B"⟩] 0x3C = some "A" ∧
    keymap_get_action [⟨0x3B, "Z"⟩, ⟨0x3C, "A"⟩, ⟨0x3C, "B"⟩] 0x3D = none ∧
    keymap_get_action [] 0x3C = none :=
  ⟨(keymap_get_action_first_match [⟨0x3B, "Z"⟩, ⟨0x3C, "A"⟩, ⟨0x3C, "B"⟩] 0x3C).2.2
      [⟨0x3B, "Z"⟩] ⟨0x3C, "A"⟩ [⟨0x3C, "B"⟩] rfl (by decide) rfl,
    ((keymap_get_action_first_match [⟨0x3B, "Z"⟩, ⟨0x3C, "A"⟩, ⟨0x3C, "B"⟩] 0x3D).2.1).2
      (by decide),
    ((keymap_get_action_first_match [] 0x3C).2.1).2 (by simp)⟩

/-! ## The claims on the key emitter -/

theorem emit_key_inner_eq_map (emitValue : Int) (chord : List Int) :
    ∀ (keys : Nat → Int) (i : Nat), (∀ j, j < chord.length → keys (i + j) = chord.getD j 0) →
      emit_key_inner keys emitValue chord.length i =
        chord.map (fun c => { type := EV_KEY, code := to_u16 c, value := emitValue }) := by
  induction chord with
  | nil => intro keys i _; rfl
  | cons c cs ih =>
    intro keys i h
    have h0 : keys i = c := by simpa using h 0 (by simp)
    have hs : ∀ j, j < cs.length → keys (i + 1 + j) = cs.getD j 0 := by
      intro j hj
      have := h (j + 1) (by simp; omega)
      simpa [Nat.add_assoc, Nat.add_comm 1 j] using this
    simp only [List.length_cons, emit_key_inner, List.map_cons, h0]
    rw [ih keys (i + 1) hs]

theorem emit_key_eq_map (chord : List Int) (keys : Nat → Int)
    (hkeys : ∀ j, j < chord.length → keys j = chord.getD j 0) :
    emit_key keys chord.length =
      chord.map key_down ++ [reportEvt] ++ chord.map key_up ++ [reportEvt] := by
  unfold emit_key emit_key_pass
  rw [emit_key_inner_eq_map 1 chord keys 0 (by simpa using hkeys),
    emit_key_inner_eq_map 0 chord keys 0 (by simpa using hkeys)]
  simp only [List.append_assoc]
  rfl

/-- C4. Two-phase emission order: for a chord `[c1, ..., cn]` stored at `keys`,
`emit_key keys n` writes the key-down events of `c1 ... cn` in order, one
synchronization event, the key-up events of `c1 ... cn` in the same order, and
one synchronization event, `2n + 2` events in all. -/
theorem emit_key_two_phase (chord : List Int) (keys : Nat → Int)
    (hkeys : ∀ j, j < chord.length → keys j = chord.getD j 0) :
    emit_key keys chord.length =
      chord.map key_down ++ [reportEvt] ++ chord.map key_up ++ [reportEvt] ∧
    (emit_key keys chord.length).length = 2 * chord.length + 2 := by
  refine ⟨emit_key_eq_map chord keys hkeys, ?_⟩
  rw [emit_key_eq_map chord keys hkeys]
  simp
  omega

/-- Witness of C4: the chord `[KEY_A, KEY_B]` gives down(A), down(B), sync,
up(A), up(B), sync. -/
theorem emit_key_two_phase_witness :
    emit_key (chars_at [KEY_A, KEY_B]) 2 =
      [key_down KEY_A, key_down KEY_B, reportEvt, key_up KEY_A, key_up KEY_B, reportEvt] ∧
    (emit_key (chars_at [KEY_A, KEY_B]) 2).length = 6 :=
  emit_key_two_phase [KEY_A, KEY_B] (chars_at [KEY_A, KEY_B]) (fun _ _ => rfl)

/-! ## Lemmas on the chord resolver -/

theorem str_key_to_event_loop_range (key : List Char) :
    ∀ table : List supported_keys_t,
      (∀ e ∈ table, 0 ≤ e.keyCode ∧ e.keyCode ≤ 127) →
        str_key_to_event_loop key table = -1 ∨
          (0 ≤ str_key_to_event_loop key table ∧ str_key_to_event_loop key table ≤ 127) := by
  intro table
  induction table with
  | nil => intro _; left; rfl
  | cons e rest ih =>
    intro h
    unfold str_key_to_event_loop
    split
    · right; exact h e (List.mem_cons_self _ _)
    · exact ih (fun x hx => h x (List.mem_cons_of_mem _ hx))

theorem SUPPORTED_KEYS_ARRAY_range :
    ∀ e ∈ SUPPORTED_KEYS_ARRAY, 0 ≤ e.keyCode ∧ e.keyCode ≤ 127 := by
  decide

/-- Every key code of the table fits a `char`: the result of `str_key_to_event`
is `-1` or lies in `0 .. 127`. -/
theorem str_key_to_event_range (key : List Char) :
    str_key_to_event key = -1 ∨ (0 ≤ str_key_to_event key ∧ str_key_to_event key ≤ 127) :=
  str_key_to_event_loop_range key SUPPORTED_KEYS_ARRAY SUPPORTED_KEYS_ARRAY_range

/-- Storing the result of `str_key_to_event` in a `char` does not change it. -/
theorem to_char_str_key_to_event (key : List Char) :
    to_char (str_key_to_event key) = str_key_to_event key := by
  unfold to_char
  rcases str_key_to_event_range key with h | h
  · rw [h]; rfl
  · omega

theorem str_key_to_event_nil : str_key_to_event [] = -1 := by decide

theorem spec_parse_action_nil : spec_parse_action [] = [] := by decide

theorem spec_parse_action_cons_plus (s : List Char) :
    spec_parse_action ('+' :: s) = spec_parse_action s := by
  unfold spec_parse_action List.splitOn
  rw [List.splitOnP_cons]
  simp [str_key_to_event_nil]

theorem spec_parse_action_dropWhile (s : List Char) :
    spec_parse_action (s.dropWhile (fun c => decide (c ∈ ['+']))) = spec_parse_action s := by
  induction s with
  | nil => rfl
  | cons c cs ih =>
    by_cases hc : c = '+'
    · subst hc
      rw [spec_parse_action_cons_plus, ← ih]
      simp [List.dropWhile]
    · simp [List.dropWhile, hc]

theorem spec_parse_action_token (tok : List Char) (h : ∀ c ∈ tok, c ≠ '+') :
    spec_parse_action tok = [str_key_to_event tok].filter (fun code => decide (code ≠ -1)) := by
  unfold spec_parse_action List.splitOn
  rw [List.splitOnP_eq_single]
  · rfl
  · intro x hx; simpa using h x hx

theorem spec_parse_action_token_plus (tok save : List Char) (h : ∀ c ∈ tok, c ≠ '+') :
    spec_parse_action (tok ++ '+' :: save) =
      [str_key_to_event tok].filter (fun code => decide (code ≠ -1)) ++
        spec_parse_action save := by
  unfold spec_parse_action List.splitOn
  rw [List.splitOnP_first]
  · simp [List.filter_cons]
    split <;> simp
  · intro x hx; simpa using h x hx
  · simp

theorem strtok_none (s : List Char) (h : strtok ['+'] s = none) : spec_parse_action s = [] := by
  unfold strtok at h
  rw [← spec_parse_action_dropWhile]
  split at h
  · rename_i heq
    rw [heq]; rfl
  · simp at h

theorem dropWhile_head_false {α : Type} (p : α → Bool) :
    ∀ (l : List α) (c : α) (rest : List α), l.dropWhile p = c :: rest → p c = false := by
  intro l
  induction l with
  | nil => intro c rest h; simp at h
  | cons a l ih =>
    intro c rest h
    by_cases ha : p a = true
    · rw [List.dropWhile_cons_of_pos ha] at h
      exact ih c rest h
    · rw [List.dropWhile_cons_of_neg ha] at h
      simp only [List.cons.injEq] at h
      rw [← h.1]
      simpa using ha

theorem strtok_some (s tok save : List Char) (h : strtok ['+'] s = some (tok, save)) :
    spec_parse_action s =
      [str_key_to_event tok].filter (fun code => decide (code ≠ -1)) ++
        spec_parse_action save ∧
    save.length < s.length := by
  unfold strtok at h
  have hlen := (List.dropWhile_suffix (fun c => decide (c ∈ ['+'])) (l := s)).length_le
  rw [← spec_parse_action_dropWhile]
  split at h
  · simp at h
  · rename_i c rest heq
    have hc : c ≠ '+' := by
      have := dropWhile_head_false _ s c rest heq
      simpa using this
    rw [heq] at hlen ⊢
    simp only [Option.some.injEq, Prod.mk.injEq] at h
    obtain ⟨htok, hsave⟩ := h
    have hsplit := List.takeWhile_append_dropWhile (fun c => decide (c ∉ ['+'])) (c :: rest)
    have htokmem : ∀ x ∈ tok, x ≠ '+' := by
      intro x hx
      rw [← htok] at hx
      have := List.mem_takeWhile_imp hx
      simpa using this
    have htokne : tok ≠ [] := by
      rw [← htok]
      simp [List.takeWhile, hc]
    have htoklen : 0 < tok.length := List.length_pos.mpr htokne
    rw [htok] at hsplit
    have hl := congrArg List.length hsplit
    rw [List.length_append] at hl
    cases hrem : (c :: rest).dropWhile (fun c => decide (c ∉ ['+'])) with
    | nil =>
      rw [hrem] at hsplit hsave hl
      rw [List.append_nil] at hsplit
      have hsave' : save = [] := by rw [← hsave]; rfl
      subst hsave'
      rw [← hsplit, spec_parse_action_token tok htokmem, spec_parse_action_nil]
      refine ⟨by simp, ?_⟩
      simp only [List.length_nil] at hl ⊢
      omega
    | cons d rem =>
      rw [hrem] at hsplit hsave hl
      have hsave' : save = rem := by rw [← hsave]; rfl
      subst hsave'
      have hd : d = '+' := by
        have := dropWhile_head_false _ (c :: rest) d save hrem
        simpa using this
      subst hd
      rw [← hsplit, spec_parse_action_token_plus tok save htokmem]
      refine ⟨rfl, ?_⟩
      simp only [List.length_cons] at hl hlen ⊢
      omega

/-- The loop of `perform_action` stores the codes of `spec_parse_action`, in
order, as soon as it is given more passes than the string has characters. -/
theorem perform_action_loop_spec :
    ∀ (fuel : Nat) (save : List Char) (events : List Int) (event_cnt : Nat),
      save.length < fuel →
        perform_action_loop fuel save events event_cnt =
          store_codes (spec_parse_action save) events event_cnt := by
  intro fuel
  induction fuel with
  | zero => intro save events event_cnt h; omega
  | succ fuel ih =>
    intro save events event_cnt h
    unfold perform_action_loop
    cases hs : strtok ['+'] save with
    | none =>
      rw [strtok_none save hs]
      rfl
    | some r =>
      obtain ⟨tok, rest⟩ := r
      obtain ⟨hcodes, hlen⟩ := strtok_some save tok rest hs
      simp only [to_char_str_key_to_event]
      rw [hcodes]
      by_cases hev : str_key_to_event tok = -1
      · simp only [hev, ne_eq, not_true_eq_false, if_false]
        rw [ih rest events event_cnt (by omega)]
        simp
      · simp only [ne_eq, hev, not_false_eq_true, if_true]
        have hf : [str_key_to_event tok].filter (fun code => decide (code ≠ -1)) =
            [str_key_to_event tok] := by simp [hev]
        rw [hf]
        simp only [List.singleton_append, store_codes]
        split
        · rw [ih rest _ _ (by omega)]
          rfl
        · rfl

theorem store_codes_fits :
    ∀ (codes front back : List Int), codes.length ≤ back.length →
      store_codes codes (front ++ back) front.length =
        .ok (front ++ codes ++ back.drop codes.length, front.length + codes.length) := by
  intro codes
  induction codes with
  | nil => intro front back _; simp [store_codes]
  | cons c cs ih =>
    intro front back h
    cases back with
    | nil => simp at h
    | cons b bs =>
      have hlt : front.length < (front ++ b :: bs).length := by simp
      simp only [store_codes, hlt, if_true]
      have hset : (front ++ b :: bs).set front.length c = (front ++ [c]) ++ bs := by
        simp [List.set_append]
      rw [hset]
      have := ih (front ++ [c]) bs (by simpa using h)
      simp only [List.length_append, List.length_singleton] at this
      rw [this]
      simp [Nat.add_assoc, Nat.add_comm 1]

theorem store_codes_overflow :
    ∀ (codes front back : List Int), back.length < codes.length →
      store_codes codes (front ++ back) front.length =
        .fault (.out_of_bounds_write (front.length + back.length)) := by
  intro codes
  induction codes with
  | nil => intro front back h; simp at h
  | cons c cs ih =>
    intro front back h
    cases back with
    | nil => simp [store_codes]
    | cons b bs =>
      have hlt : front.length < (front ++ b :: bs).length := by simp
      simp only [store_codes, hlt, if_true]
      have hset : (front ++ b :: bs).set front.length c = (front ++ [c]) ++ bs := by
        simp [List.set_append]
      rw [hset]
      have := ih (front ++ [c]) bs (by simpa using h)
      simp only [List.length_append, List.length_singleton] at this
      rw [this]
      simp [Nat.add_assoc, Nat.add_comm 1]

/-- The array and the count `perform_action` passes to `emit_key` when the
action has at most 10 resolvable tokens. -/
theorem perform_action_args_fits (action : String)
    (h : (spec_parse_action action.toList).length ≤ 10) :
    perform_action_args action =
      .ok (spec_parse_action action.toList ++
            List.replicate (10 - (spec_parse_action action.toList).length) 0,
          (spec_parse_action action.toList).length) := by
  unfold perform_action_args
  rw [perform_action_loop_spec _ _ _ _ (Nat.lt_succ_self _)]
  have := store_codes_fits (spec_parse_action action.toList) [] (List.replicate 10 0)
    (by rw [List.length_replicate]; exact h)
  rw [List.drop_replicate] at this
  simpa only [List.nil_append, List.length_nil, Nat.zero_add] using this

/-- The store past the end of `events` when the action has more than 10
resolvable tokens. -/
theorem perform_action_args_overflow (action : String)
    (h : 10 < (spec_parse_action action.toList).length) :
    perform_action_args action = .fault (.out_of_bounds_write 10) := by
  unfold perform_action_args
  rw [perform_action_loop_spec _ _ _ _ (Nat.lt_succ_self _)]
  have := store_codes_overflow (spec_parse_action action.toList) [] (List.replicate 10 0)
    (by rw [List.length_replicate]; exact h)
  simpa only [List.nil_append, List.length_nil, Nat.zero_add, List.length_replicate] using this

/-! ## The claims on the chord resolver -/

/-- The events `perform_action` writes when the action has at most 10
resolvable tokens. -/
theorem perform_action_fits (action : String)
    (h : (spec_parse_action action.toList).length ≤ 10) :
    perform_action action =
      .ok ((spec_parse_action action.toList).map key_down ++ [reportEvt] ++
        (spec_parse_action action.toList).map key_up ++ [reportEvt]) := by
  unfold perform_action
  rw [perform_action_args_fits action h]
  simp only [Outcome.map]
  rw [emit_key_eq_map (spec_parse_action action.toList)]
  intro j hj
  unfold chars_at
  exact List.getD_append _ _ _ _ hj

theorem perform_action_chord_fits (action : String)
    (h : (spec_parse_action action.toList).length ≤ 10) :
    perform_action_chord action = .ok (spec_parse_action action.toList) := by
  unfold perform_action_chord
  rw [perform_action_args_fits action h]
  simp [Outcome.map]

/-- C5, the code at a failing input.  The action `A+B+C+D+E+F+G+H+I+J+K` has
11 resolvable tokens; `perform_action` stores the first 10 codes in `events`
and then stores the code of `K` to `events[10]`, past the end of the array of
10 chars, instead of dropping it. -/
theorem perform_action_eleven_tokens :
    spec_parse_action "A+B+C+D+E+F+G+H+I+J+K".toList =
      [KEY_A, KEY_B, KEY_C, KEY_D, KEY_E, KEY_F, KEY_G, KEY_H, KEY_I, KEY_J, KEY_K] ∧
    perform_action_args "A+B+C+D+E+F+G+H+I+J+K" = .fault (.out_of_bounds_write 10) ∧
    perform_action_chord "A+B+C+D+E+F+G+H+I+J+K" = .fault (.out_of_bounds_write 10) ∧
    perform_action "A+B+C+D+E+F+G+H+I+J+K" = .fault (.out_of_bounds_write 10) := by
  decide

/-- C6. Empty chord: for an action none of whose `+`-separated tokens resolves,
`perform_action` passes `event_cnt = 0` to `emit_key` and the emission is two
synchronization events and no key event. -/
theorem perform_action_empty_chord (action : String)
    (h : ∀ tok ∈ action.toList.splitOn '+', str_key_to_event tok = -1) :
    perform_action_args action = .ok (List.replicate 10 0, 0) ∧
    perform_action_chord action = .ok [] ∧
    perform_action action = .ok [reportEvt, reportEvt] := by
  have hnil : spec_parse_action action.toList = [] := by
    unfold spec_parse_action
    rw [List.filter_eq_nil_iff]
    intro code hcode
    obtain ⟨tok, htok, rfl⟩ := List.mem_map.mp hcode
    simp [h tok htok]
  have hlen : (spec_parse_action action.toList).length ≤ 10 := by rw [hnil]; decide
  have h1 := perform_action_args_fits action hlen
  have h2 := perform_action_chord_fits action hlen
  have h3 := perform_action_fits action hlen
  rw [hnil] at h1 h2 h3
  exact ⟨by simpa using h1, h2, by simpa using h3⟩

/-- Witness of C6: the empty action, an action of delimiters only, and an
action whose tokens are not in the key table. -/
theorem perform_action_empty_chord_witness :
    perform_action "" = .ok [reportEvt, reportEvt] ∧
    perform_action "+++" = .ok [reportEvt, reportEvt] ∧
    perform_action "a+ctrl" = .ok [reportEvt, reportEvt] :=
  ⟨(perform_action_empty_chord "" (by decide)).2.2,
    (perform_action_empty_chord "+++" (by decide)).2.2,
    (perform_action_empty_chord "a+ctrl" (by decide)).2.2⟩

/-- C9. Chord parsing: for an action with at most 10 resolvable tokens,
`perform_action` completes and the chord it passes to `emit_key` is the list
of the codes `str_key_to_event` gives for the `+`-separated tokens, without the
unresolved ones and in token order; the events written are those of that
chord; and storing a result of `str_key_to_event` in a `char` leaves it as it
is, so that the test against `-1` drops exactly the unresolved tokens. -/
theorem perform_action_chord_spec (action : String)
    (h : (spec_parse_action action.toList).length ≤ 10) :
    perform_action_chord action =
      .ok (((action.toList.splitOn '+').map str_key_to_event).filter
        (fun code => decide (code ≠ -1))) ∧
    perform_action action =
      .ok ((spec_parse_action action.toList).map key_down ++ [reportEvt] ++
        (spec_parse_action action.toList).map key_up ++ [reportEvt]) ∧
    (∀ tok : List Char, to_char (str_key_to_event tok) = str_key_to_event tok) :=
  ⟨perform_action_chord_fits action h, perform_action_fits action h, to_char_str_key_to_event⟩

/-- Witness of C9: `CTRL+x+ALT+DEL` gives the chord of `CTRL`, `ALT` and `DEL`;
the unresolved token `x` is left out and does not stop the action. -/
theorem perform_action_chord_spec_witness :
    perform_action_chord "CTRL+x+ALT+DEL" = .ok [KEY_LEFTCTRL, KEY_LEFTALT, KEY_DELETE] ∧
    perform_action "CTRL+x+ALT+DEL" =
      .ok [key_down KEY_LEFTCTRL, key_down KEY_LEFTALT, key_down KEY_DELETE, reportEvt,
        key_up KEY_LEFTCTRL, key_up KEY_LEFTALT, key_up KEY_DELETE, reportEvt] :=
  ⟨(perform_action_chord_spec "CTRL+x+ALT+DEL" (by decide)).1,
    (perform_action_chord_spec "CTRL+x+ALT+DEL" (by decide)).2.1⟩

/-! ## Lemmas on the transport filter -/

theorem filter_keeps_eq_not_removed (ic ias : Bool) (b : Nat) :
    filter_keeps ic ias b = !spec_removed ic ias b := by
  unfold filter_keeps spec_removed MIDI_CMD_COMMON_CLOCK MIDI_CMD_COMMON_SENSING
  by_cases h1 : b = 0xf8
  · subst h1; cases ic <;> cases ias <;> decide
  · by_cases h2 : b = 0xfe
    · subst h2; cases ic <;> cases ias <;> decide
    · have e1 : (b == 0xf8) = false := by simpa using h1
      have e2 : (b == 0xfe) = false := by simpa using h2
      simp [e1, e2, bne]

/-- The invariant of the filter loop: entered at index `i` with `length ≤ i`,
it leaves the bytes below `length` and the bytes from `i + remaining` on as they
are, and stores the kept ones of the bytes `i .. i + remaining - 1` from
`length` on. -/
theorem filter_loop_spec (ic ias : Bool) :
    ∀ (remaining i : Nat) (buf : Nat → Nat) (length : Nat), length ≤ i →
      (∀ j, j < length → (filter_loop ic ias remaining i buf length).1 j = buf j) ∧
      (∀ j, i + remaining ≤ j → (filter_loop ic ias remaining i buf length).1 j = buf j) ∧
      (filter_loop ic ias remaining i buf length).2 =
        length + (((List.range' i remaining).map buf).filter (filter_keeps ic ias)).length ∧
      (∀ k, k < (((List.range' i remaining).map buf).filter (filter_keeps ic ias)).length →
        (filter_loop ic ias remaining i buf length).1 (length + k) =
          (((List.range' i remaining).map buf).filter (filter_keeps ic ias)).getD k 0) := by
  intro remaining
  induction remaining with
  | zero =>
    intro i buf length _
    simp [filter_loop]
  | succ n ih =>
    intro i buf length hle
    have hrange : List.range' i (n + 1) = i :: List.range' (i + 1) n := by
      simp [List.range'_succ]
    by_cases hk : filter_keeps ic ias (buf i) = true
    · have hmap : (List.range' (i + 1) n).map (store buf length (buf i)) =
          (List.range' (i + 1) n).map buf := by
        apply List.map_congr_left
        intro j hj
        have : i + 1 ≤ j := (List.mem_range'_1.mp hj).1
        unfold store
        rw [if_neg (by omega)]
      obtain ⟨h1, h2, h3, h4⟩ := ih (i + 1) (store buf length (buf i)) (length + 1) (by omega)
      rw [hmap] at h3 h4
      simp only [filter_loop, hk, if_true, hrange, List.map_cons, List.filter_cons]
      refine ⟨?_, ?_, ?_, ?_⟩
      · intro j hj
        rw [h1 j (by omega)]
        unfold store
        rw [if_neg (by omega)]
      · intro j hj
        rw [h2 j (by omega)]
        unfold store
        rw [if_neg (by omega)]
      · rw [h3]
        simp only [List.length_cons]
        omega
      · intro k hk'
        cases k with
        | zero =>
          have e := h1 length (by omega)
          simp only [Nat.add_zero]
          rw [e]
          simp [store]
        | succ k =>
          have := h4 k (by simpa using hk')
          rw [show length + (k + 1) = length + 1 + k by omega, this]
          simp
    · obtain ⟨h1, h2, h3, h4⟩ := ih (i + 1) buf length (by omega)
      simp only [filter_loop, hk, hrange, List.map_cons, List.filter_cons]
      refine ⟨h1, ?_, h3, h4⟩
      intro j hj
      exact h2 j (by omega)

theorem read_bytes_store_bytes (buf : Nat → Nat) (raw : List Nat) :
    read_bytes (store_bytes buf raw) raw.length = raw := by
  unfold read_bytes
  apply List.ext_getElem
  · simp
  · intro k h1 h2
    simp only [List.getElem_map, List.getElem_range, store_bytes]
    rw [if_pos h2]
    simp [List.getD_eq_getElem?_getD, List.getElem?_eq_getElem h2]

/-- The in-place filter equals the list filter: the batch it leaves at the start
of the buffer is the list of the kept bytes of the batch read, in order. -/
theorem transport_filter_spec (ic ias : Bool) (buf : Nat → Nat) (err : Nat) :
    read_bytes (transport_filter ic ias buf err).1 (transport_filter ic ias buf err).2 =
      (read_bytes buf err).filter (filter_keeps ic ias) ∧
    (transport_filter ic ias buf err).2 =
      ((read_bytes buf err).filter (filter_keeps ic ias)).length := by
  obtain ⟨_, _, h3, h4⟩ := filter_loop_spec ic ias err 0 buf 0 (le_refl _)
  have hr : List.range' 0 err = List.range err := by
    simp [List.range_eq_range']
  rw [hr] at h3 h4
  simp only [Nat.zero_add] at h3 h4
  have hlen : (transport_filter ic ias buf err).2 =
      ((read_bytes buf err).filter (filter_keeps ic ias)).length := h3
  refine ⟨?_, hlen⟩
  apply List.ext_getElem
  · simp [read_bytes, hlen]
  · intro k hk1 hk2
    have := h4 k hk2
    simp only [read_bytes, List.getElem_map, List.getElem_range]
    unfold transport_filter
    rw [this]
    have hk3 : k < (List.filter (filter_keeps ic ias) (List.map buf (List.range err))).length :=
      hk2
    simp [read_bytes, List.getD_eq_getElem?_getD, List.getElem?_eq_getElem hk3]

/-! ## Lemmas on one pass of the event loop -/

/-- The length of the filtered batch of a pass that reads `bytes`. -/
theorem transport_filter_received_length (ic ias : Bool) (buf : Nat → Nat) (bytes : List Nat) :
    (transport_filter ic ias (store_bytes buf bytes) bytes.length).2 =
      (bytes.filter (filter_keeps ic ias)).length := by
  rw [(transport_filter_spec ic ias (store_bytes buf bytes) bytes.length).2,
    read_bytes_store_bytes]

/-- A pass whose read returns bytes, from the read on: the pass of a wake that
gets as far as the read. -/
theorem main_loop_pass_received (cfg : Config) (km : List KEYMAP_NODE_T) (w : Wake)
    (bytes : List Nat) (hread : w.read = .received bytes)
    (hstop : w.stop = false) (hpoll : 0 ≤ w.poll_err) (hrev : 0 ≤ w.revents_err)
    (herr : w.revents &&& (POLLERR ||| POLLHUP) = 0) (hin : w.revents &&& POLLIN ≠ 0) :
    main_loop_pass cfg km w =
      if (transport_filter cfg.ignore_clock cfg.ignore_active_sensing
          (store_bytes w.buf (bytes.take 256)) (bytes.take 256).length).2 = 0 then
        ([.snd_rawmidi_read], .next_pass)
      else
        if cfg.timeout_pos then
          if w.settime_err < 0 then
            ([.snd_rawmidi_read,
              .parse_rx_data (transport_filter cfg.ignore_clock cfg.ignore_active_sensing
                (store_bytes w.buf (bytes.take 256)) (bytes.take 256).length).2
                (parse_rx_data km (transport_filter cfg.ignore_clock cfg.ignore_active_sensing
                  (store_bytes w.buf (bytes.take 256)) (bytes.take 256).length).1
                  (transport_filter cfg.ignore_clock cfg.ignore_active_sensing
                    (store_bytes w.buf (bytes.take 256)) (bytes.take 256).length).2),
              .timerfd_settime cfg.itimerspec, .error "cannot set timer"], .leave_loop)
          else
            ([.snd_rawmidi_read,
              .parse_rx_data (transport_filter cfg.ignore_clock cfg.ignore_active_sensing
                (store_bytes w.buf (bytes.take 256)) (bytes.take 256).length).2
                (parse_rx_data km (transport_filter cfg.ignore_clock cfg.ignore_active_sensing
                  (store_bytes w.buf (bytes.take 256)) (bytes.take 256).length).1
                  (transport_filter cfg.ignore_clock cfg.ignore_active_sensing
                    (store_bytes w.buf (bytes.take 256)) (bytes.take 256).length).2),
              .timerfd_settime cfg.itimerspec], .next_pass)
        else
          ([.snd_rawmidi_read,
            .parse_rx_data (transport_filter cfg.ignore_clock cfg.ignore_active_sensing
              (store_bytes w.buf (bytes.take 256)) (bytes.take 256).length).2
              (parse_rx_data km (transport_filter cfg.ignore_clock cfg.ignore_active_sensing
                (store_bytes w.buf (bytes.take 256)) (bytes.take 256).length).1
                (transport_filter cfg.ignore_clock cfg.ignore_active_sensing
                  (store_bytes w.buf (bytes.take 256)) (bytes.take 256).length).2)],
            .next_pass) := by
  have h1 : ¬ (w.stop = true ∨ (w.poll_err < 0 ∧ w.poll_eintr = true)) := by
    rw [hstop]; simp; omega
  have h2 : ¬ w.poll_err < 0 := by omega
  have h3 : ¬ w.revents_err < 0 := by omega
  have h4 : ¬ (w.revents &&& (POLLERR ||| POLLHUP) ≠ 0) := by simp [herr]
  have h5 : ¬ (w.revents &&& POLLIN = 0) := hin
  have h6 : ¬ (((bytes.take 256).length : Int) = -EAGAIN) := by
    unfold EAGAIN; omega
  have h7 : ¬ (((bytes.take 256).length : Int) < 0) := by omega
  unfold main_loop_pass
  rw [if_neg h1, if_neg h2, if_neg h3, if_neg h4, if_neg h5, hread]
  simp only [if_neg h6, if_neg h7, Int.toNat_ofNat]

/-- A pass whose read fails calls neither `parse_rx_data` nor
`timerfd_settime`. -/
theorem main_loop_pass_failed (cfg : Config) (km : List KEYMAP_NODE_T) (w : Wake)
    (errno : Nat) (hread : w.read = .failed errno) :
    ∀ e ∈ (main_loop_pass cfg km w).1, e = .snd_rawmidi_read ∨ ∃ m, e = .error m := by
  unfold main_loop_pass
  rw [hread]
  have h0 : (transport_filter cfg.ignore_clock cfg.ignore_active_sensing w.buf 0).2 = 0 := rfl
  by_cases hz : errno = 0
  · subst hz
    simp only [Nat.cast_zero, neg_zero, Int.toNat_zero, h0]
    split_ifs <;> simp
  · have hneg : (-(errno : Int)) < 0 := by omega
    simp only [hneg, if_true]
    split_ifs <;> simp

/-- A pass either gets as far as the read, or calls nothing but `error`. -/
theorem main_loop_pass_cases (cfg : Config) (km : List KEYMAP_NODE_T) (w : Wake) :
    (∀ e ∈ (main_loop_pass cfg km w).1, ∃ m, e = .error m) ∨
    (w.stop = false ∧ 0 ≤ w.poll_err ∧ 0 ≤ w.revents_err ∧
      w.revents &&& (POLLERR ||| POLLHUP) = 0 ∧ w.revents &&& POLLIN ≠ 0) := by
  by_cases h1 : w.stop = true ∨ (w.poll_err < 0 ∧ w.poll_eintr = true)
  · left; unfold main_loop_pass; rw [if_pos h1]; simp
  by_cases h2 : w.poll_err < 0
  · left; unfold main_loop_pass; rw [if_neg h1, if_pos h2]; simp
  by_cases h3 : w.revents_err < 0
  · left; unfold main_loop_pass; rw [if_neg h1, if_neg h2, if_pos h3]; simp
  by_cases h4 : w.revents &&& (POLLERR ||| POLLHUP) ≠ 0
  · left; unfold main_loop_pass; rw [if_neg h1, if_neg h2, if_neg h3, if_pos h4]; simp
  by_cases h5 : w.revents &&& POLLIN = 0
  · left; unfold main_loop_pass; rw [if_neg h1, if_neg h2, if_neg h3, if_neg h4, if_pos h5]
    split <;> simp
  right
  refine ⟨?_, by omega, by omega, by simpa using h4, h5⟩
  cases hs : w.stop with
  | false => rfl
  | true => exact absurd (Or.inl hs) h1

theorem filter_keeps_eq_fun (ic ias : Bool) :
    filter_keeps ic ias = fun b => !spec_removed ic ias b :=
  funext (filter_keeps_eq_not_removed ic ias)

/-! ## The claims on the transport filter and the idle timer -/

/-- C7 as stated fails.  With the idle timeout configured and both filter flags
set, a pass whose read returns the non-empty batch `0xF8 0xFE` filters it to
zero bytes and ends with `continue` before the timer is armed: the pass calls
`snd_rawmidi_read` and nothing else. -/
theorem idle_timer_not_reset_on_filtered_batch :
    ([0xF8, 0xFE] : List Nat) ≠ [] ∧
    main_loop_pass ⟨true, (5, 0), true, true⟩ [⟨0x3C, "A"⟩]
      ⟨false, 1, false, 0, POLLIN, 0, .received [0xF8, 0xFE], 0, fun _ => 0⟩
      = ([.snd_rawmidi_read], .next_pass) ∧
    Effect.timerfd_settime (5, 0) ∉
      (main_loop_pass ⟨true, (5, 0), true, true⟩ [⟨0x3C, "A"⟩]
        ⟨false, 1, false, 0, POLLIN, 0, .received [0xF8, 0xFE], 0, fun _ => 0⟩).1 := by
  decide

/-- C7, amended.  In a pass of the event loop that gets as far as the read, with
the idle timeout configured, the timer is armed again, with the `itimerspec`
fixed before the loop, if and only if the read returns a batch of which at
least one byte is left by the transport filter; no other value is ever given
to the timer. -/
theorem idle_timer_reset_iff_filtered_nonempty (cfg : Config) (km : List KEYMAP_NODE_T)
    (w : Wake) (htimeout : cfg.timeout_pos = true)
    (hstop : w.stop = false) (hpoll : 0 ≤ w.poll_err) (hrev : 0 ≤ w.revents_err)
    (herr : w.revents &&& (POLLERR ||| POLLHUP) = 0) (hin : w.revents &&& POLLIN ≠ 0) :
    (Effect.timerfd_settime cfg.itimerspec ∈ (main_loop_pass cfg km w).1 ↔
      ∃ bytes, w.read = .received bytes ∧
        (bytes.take 256).filter
          (fun b => !spec_removed cfg.ignore_clock cfg.ignore_active_sensing b) ≠ []) ∧
    (∀ it_value, Effect.timerfd_settime it_value ∈ (main_loop_pass cfg km w).1 →
      it_value = cfg.itimerspec) := by
  cases hread : w.read with
  | failed errno =>
    have hf := main_loop_pass_failed cfg km w errno hread
    refine ⟨⟨?_, ?_⟩, ?_⟩
    · intro hmem
      rcases hf _ hmem with h | ⟨m, h⟩ <;> cases h
    · rintro ⟨bytes, hb, _⟩
      cases hb
    · intro v hmem
      rcases hf _ hmem with h | ⟨m, h⟩ <;> cases h
  | received bytes =>
    rw [main_loop_pass_received cfg km w bytes hread hstop hpoll hrev herr hin,
      transport_filter_received_length, filter_keeps_eq_fun, htimeout]
    by_cases hz : ((bytes.take 256).filter
        (fun b => !spec_removed cfg.ignore_clock cfg.ignore_active_sensing b)).length = 0
    · have hnil := List.length_eq_zero.mp hz
      rw [if_pos hz]
      refine ⟨⟨?_, ?_⟩, ?_⟩
      · intro hmem; simp at hmem
      · rintro ⟨b, hb, hne⟩
        cases hb
        exact absurd hnil hne
      · intro v hmem; simp at hmem
    · have hne : (bytes.take 256).filter
          (fun b => !spec_removed cfg.ignore_clock cfg.ignore_active_sensing b) ≠ [] :=
        fun h => hz (by rw [h]; rfl)
      rw [if_neg hz]
      refine ⟨⟨fun _ => ⟨bytes, rfl, hne⟩, ?_⟩, ?_⟩
      · intro _
        rw [if_pos rfl]
        split_ifs <;> simp
      · intro v hmem
        rw [if_pos rfl] at hmem
        split_ifs at hmem <;> simpa using hmem

/-- Witness of C7, amended: a pass that reads `0x3C 0x40 0xF8` arms the timer
with the configured `(5, 0)`, and a pass that reads `0xF8 0xFE` does not. -/
theorem idle_timer_reset_iff_filtered_nonempty_witness :
    Effect.timerfd_settime (5, 0) ∈
      (main_loop_pass ⟨true, (5, 0), true, true⟩ [⟨0x3C, "A"⟩]
        ⟨false, 1, false, 0, POLLIN, 0, .received [0x3C, 0x40, 0xF8], 0, fun _ => 0⟩).1 ∧
    Effect.timerfd_settime (5, 0) ∉
      (main_loop_pass ⟨true, (5, 0), true, true⟩ [⟨0x3C, "A"⟩]
        ⟨false, 1, false, 0, POLLIN, 0, .received [0xF8, 0xFE], 0, fun _ => 0⟩).1 :=
  ⟨((idle_timer_reset_iff_filtered_nonempty ⟨true, (5, 0), true, true⟩ [⟨0x3C, "A"⟩]
      ⟨false, 1, false, 0, POLLIN, 0, .received [0x3C, 0x40, 0xF8], 0, fun _ => 0⟩
      rfl rfl (by decide) (by decide) (by decide) (by decide)).1).2
      ⟨[0x3C, 0x40, 0xF8], rfl, by decide⟩,
    fun hmem =>
      (((idle_timer_reset_iff_filtered_nonempty ⟨true, (5, 0), true, true⟩ [⟨0x3C, "A"⟩]
        ⟨false, 1, false, 0, POLLIN, 0, .received [0xF8, 0xFE], 0, fun _ => 0⟩
        rfl rfl (by decide) (by decide) (by decide) (by decide)).1).1 hmem).elim
        (fun bytes hb => by
          obtain ⟨hb1, hb2⟩ := hb
          cases hb1
          exact hb2 (by decide))⟩

/-- C8. Transport filter: the batch the in-place filter leaves at the start of
the buffer is the batch read without its clock bytes `0xF8` when `ignore_clock`
is set and without its active-sensing bytes `0xFE` when
`ignore_active_sensing` is set, every other byte kept in its place in the
order; and with both flags set a batch of clock and active-sensing bytes only
is filtered to zero bytes and the pass does not call `parse_rx_data`. -/
theorem transport_filter_eq_list_filter (ic ias : Bool) (raw : List Nat) (buf : Nat → Nat) :
    read_bytes (transport_filter ic ias (store_bytes buf raw) raw.length).1
        (transport_filter ic ias (store_bytes buf raw) raw.length).2 =
      raw.filter (fun b => !((b == 0xF8 && ic) || (b == 0xFE && ias))) ∧
    ((∀ b ∈ raw, b = 0xF8 ∨ b = 0xFE) →
      (transport_filter true true (store_bytes buf raw) raw.length).2 = 0 ∧
      ∀ (cfg : Config) (km : List KEYMAP_NODE_T) (w : Wake),
        cfg.ignore_clock = true → cfg.ignore_active_sensing = true →
        w.read = .received raw →
          ∀ n d, Effect.parse_rx_data n d ∉ (main_loop_pass cfg km w).1) := by
  refine ⟨?_, ?_⟩
  · rw [(transport_filter_spec ic ias (store_bytes buf raw) raw.length).1,
      read_bytes_store_bytes, filter_keeps_eq_fun]
    rfl
  · intro hall
    have hnil : ∀ l : List Nat, (∀ b ∈ l, b = 0xF8 ∨ b = 0xFE) →
        l.filter (filter_keeps true true) = [] := by
      intro l hl
      rw [List.filter_eq_nil_iff]
      intro b hb
      rcases hl b hb with h | h <;> subst h <;> decide
    refine ⟨?_, ?_⟩
    · rw [transport_filter_received_length, hnil raw hall]
      rfl
    · intro cfg km w hc hs hread n d hmem
      rcases main_loop_pass_cases cfg km w with h | ⟨hstop, hpoll, hrev, herr, hin⟩
      · obtain ⟨m, hm⟩ := h _ hmem
        cases hm
      · rw [main_loop_pass_received cfg km w raw hread hstop hpoll hrev herr hin,
          transport_filter_received_length, hc, hs,
          hnil (raw.take 256) (fun b hb => hall b (List.mem_of_mem_take hb))] at hmem
        simp at hmem

/-- Witness of C8: with both flags set the batch `F8 3C FE 40 F8` is filtered
to `3C 40`, and a pass that reads the batch `F8 FE F8` calls
`snd_rawmidi_read` only. -/
theorem transport_filter_eq_list_filter_witness :
    read_bytes
        (transport_filter true true
          (store_bytes (fun _ => 0) [0xF8, 0x3C, 0xFE, 0x40, 0xF8]) 5).1
        (transport_filter true true
          (store_bytes (fun _ => 0) [0xF8, 0x3C, 0xFE, 0x40, 0xF8]) 5).2 = [0x3C, 0x40] ∧
    (transport_filter true true (store_bytes (fun _ => 0) [0xF8, 0xFE, 0xF8]) 3).2 = 0 ∧
    (∀ n d, Effect.parse_rx_data n d ∉
      (main_loop_pass ⟨false, (0, 0), true, true⟩ [⟨0x3C, "A"⟩]
        ⟨false, 1, false, 0, POLLIN, 0, .received [0xF8, 0xFE, 0xF8], 0, fun _ => 0⟩).1) :=
  ⟨(transport_filter_eq_list_filter true true [0xF8, 0x3C, 0xFE, 0x40, 0xF8] (fun _ => 0)).1,
    ((transport_filter_eq_list_filter true true [0xF8, 0xFE, 0xF8] (fun _ => 0)).2
      (by decide)).1,
    ((transport_filter_eq_list_filter true true [0xF8, 0xFE, 0xF8] (fun _ => 0)).2
      (by decide)).2 ⟨false, (0, 0), true, true⟩ [⟨0x3C, "A"⟩]
      ⟨false, 1, false, 0, POLLIN, 0, .received [0xF8, 0xFE, 0xF8], 0, fun _ => 0⟩ rfl rfl rfl⟩

/-! ## The claims on loading the keymap -/

/-- A node appended by a line has a trigger in `1 .. 255`. -/
theorem load_keymap_line_key (strtol : List Char → Int) (line : List Char)
    (node : KEYMAP_NODE_T) (h : load_keymap_line strtol line = .ok (some node)) :
    node.key ≠ 0 ∧ node.key < 256 := by
  unfold load_keymap_line at h
  simp only at h
  generalize (if line.getLast? = some '\n' then line.dropLast else line) = stripped at h
  split at h
  · cases h
  · split at h
    · cases h
    · rename_i token save _
      split at h
      · cases h
      · split at h
        · cases h
        · rename_i hne
          simp only [Outcome.ok.injEq, Option.some.injEq] at h
          subst h
          refine ⟨hne, ?_⟩
          show (strtol token % 256).toNat < 256
          have h1 : strtol token % 256 < 256 := Int.emod_lt_of_pos _ (by decide)
          have h2 : 0 ≤ strtol token % 256 := Int.emod_nonneg _ (by decide)
          omega

theorem load_keymap_loop_keys (strtol : List Char → Int) :
    ∀ (fuel : Nat) (stream : List Char) (keymap result : List KEYMAP_NODE_T),
      (∀ e ∈ keymap, e.key ≠ 0) →
      load_keymap_loop strtol fuel stream keymap = .ok result →
        ∀ e ∈ result, e.key ≠ 0 := by
  intro fuel
  induction fuel with
  | zero => intro stream keymap result _ h; cases h
  | succ fuel ih =>
    intro stream keymap result hk h
    unfold load_keymap_loop at h
    split at h
    · cases h; exact hk
    · rename_i line rest _
      split at h
      · exact ih rest keymap result hk h
      · rename_i nextNode hline
        refine ih rest (keymap ++ [nextNode]) result ?_ h
        intro e he
        rcases List.mem_append.mp he with he | he
        · exact hk e he
        · rw [List.mem_singleton.mp he]
          exact (load_keymap_line_key strtol line nextNode hline).1
      · cases h
      · cases h

/-- When `load_keymap` completes, no node of the list has trigger 0. -/
theorem load_keymap_keys (strtol : List Char → Int) (km_file : Option (List Char))
    (ret : Int) (keymap : List KEYMAP_NODE_T)
    (h : load_keymap strtol km_file = .ok (ret, keymap)) :
    ∀ e ∈ keymap, e.key ≠ 0 := by
  unfold load_keymap at h
  cases km_file with
  | none =>
    simp only [Outcome.ok.injEq, Prod.mk.injEq] at h
    rw [← h.2]
    simp
  | some stream =>
    simp only at h
    cases hl : load_keymap_loop strtol (stream.length + 1) stream [] with
    | ok result =>
      rw [hl] at h
      simp only [Outcome.map, Outcome.ok.injEq, Prod.mk.injEq] at h
      rw [← h.2]
      exact load_keymap_loop_keys strtol _ stream [] result (by simp) hl
    | fault f => rw [hl] at h; cases h
    | out_of_fuel => rw [hl] at h; cases h

/-- C10, the code at a failing input.  On a blank line, and on a line of commas
only, the first `strtok` returns `NULL` and `load_keymap` hands it to `strtol`:
the load of a file with a blank line does not complete, whatever `strtol`
computes.  The second `strtok` is checked against `NULL`, and a file without
such a line loads as the claim says (here with a `strtol` that reads `60`, `61`
and `62` and gives 0 otherwise). -/
theorem load_keymap_blank_line :
    (∀ strtol : List Char → Int,
      load_keymap_line strtol "\n".toList = .fault .null_dereference ∧
      load_keymap_line strtol ",,\n".toList = .fault .null_dereference ∧
      load_keymap strtol (some "# keymap\n\n60,A\n".toList) = .fault .null_dereference) ∧
    load_keymap
      (fun s => if s = "60".toList then 60 else if s = "62".toList then 62 else 0)
      (some "# keymap\n60,A\n61\n0,B\n ,C\n62,C+D\n60,E\n".toList) =
        .ok (0, [⟨60, "A"⟩, ⟨62, "C+D"⟩, ⟨60, "E"⟩]) :=
  ⟨fun _ => ⟨rfl, rfl, rfl⟩, by decide⟩

/-! ## The claim on the key table -/

theorem str_key_to_event_loop_eq_find (key : List Char) :
    ∀ table : List supported_keys_t,
      str_key_to_event_loop key table =
        ((table.find? (fun e => decide (e.ascii.toList = key))).map
          supported_keys_t.keyCode).getD (-1) := by
  intro table
  induction table with
  | nil => rfl
  | cons e rest ih =>
    unfold str_key_to_event_loop
    rw [List.find?_cons]
    by_cases h : e.ascii.toList = key
    · rw [if_pos h, decide_eq_true h]
      rfl
    · rw [if_neg h, decide_eq_false h, ih]

/-- C11. Key-name resolution: `str_key_to_event name` is the code of the first
entry of `SUPPORTED_KEYS_ARRAY` whose name is `name`, character for character,
and it is `-1` exactly when no entry has that name; `"a"` and `"ctrl"` are not
resolved while `"A"` and `"CTRL"` are, and `" "` and `"SPACE"` both give
`KEY_SPACE`. -/
theorem str_key_to_event_first_match (name : String) :
    str_key_to_event name.toList =
      ((SUPPORTED_KEYS_ARRAY.find? (fun e => decide (e.ascii = name))).map
        supported_keys_t.keyCode).getD (-1) ∧
    (str_key_to_event name.toList = -1 ↔ ∀ e ∈ SUPPORTED_KEYS_ARRAY, e.ascii ≠ name) ∧
    (∀ (before : List supported_keys_t) (e : supported_keys_t) (after : List supported_keys_t),
      SUPPORTED_KEYS_ARRAY = before ++ e :: after → (∀ x ∈ before, x.ascii ≠ name) →
        e.ascii = name → str_key_to_event name.toList = e.keyCode) ∧
    (str_key_to_event "a".toList = -1 ∧ str_key_to_event "ctrl".toList = -1 ∧
      str_key_to_event "A".toList = KEY_A ∧ str_key_to_event "CTRL".toList = KEY_LEFTCTRL ∧
      str_key_to_event " ".toList = KEY_SPACE ∧ str_key_to_event "SPACE".toList = KEY_SPACE) := by
  have hfun : (fun e : supported_keys_t => decide (e.ascii.toList = name.toList)) =
      (fun e => decide (e.ascii = name)) := by
    funext e
    simp only [String.toList_inj]
  have hfind : str_key_to_event name.toList =
      ((SUPPORTED_KEYS_ARRAY.find? (fun e => decide (e.ascii = name))).map
        supported_keys_t.keyCode).getD (-1) := by
    unfold str_key_to_event
    rw [str_key_to_event_loop_eq_find, hfun]
  refine ⟨hfind, ?_, ?_, by decide⟩
  · rw [hfind]
    constructor
    · intro h e he hname
      cases hf : SUPPORTED_KEYS_ARRAY.find? (fun e => decide (e.ascii = name)) with
      | none =>
        have := List.find?_eq_none.mp hf e he
        simp [hname] at this
      | some x =>
        rw [hf] at h
        have hx := SUPPORTED_KEYS_ARRAY_range x (List.mem_of_find?_eq_some hf)
        simp only [Option.map_some', Option.getD_some] at h
        omega
    · intro h
      have hf : SUPPORTED_KEYS_ARRAY.find? (fun e => decide (e.ascii = name)) = none := by
        rw [List.find?_eq_none]
        intro e he
        simpa using h e he
      rw [hf]
      rfl
  · intro before e after htable hbefore he
    rw [hfind, htable, List.find?_append]
    have h1 : before.find? (fun e => decide (e.ascii = name)) = none := by
      rw [List.find?_eq_none]
      intro x hx
      simpa using hbefore x hx
    simp [h1, List.find?, he]

/-- Witness of C11: `"SPACE"` is resolved through the second of the two entries
with code `KEY_SPACE`, and `"space"` is not resolved. -/
theorem str_key_to_event_first_match_witness :
    str_key_to_event "SPACE".toList = 57 ∧ str_key_to_event "space".toList = -1 :=
  ⟨(str_key_to_event_first_match "SPACE").1,
    ((str_key_to_event_first_match "space").2.1).2 (by decide)⟩

/-! ## The claim on status bytes -/

/-- C12. Status bytes are never dispatched: at a cursor whose byte is `0x80`
or above, the pass of `parse_rx_data` dispatches nothing, whatever the keymap
and the following byte are, and moves the cursor by one, so that the loop
resumes at the byte after the status byte. -/
theorem parse_rx_data_status_byte (km : List KEYMAP_NODE_T) (buf : Nat → Nat)
    (bufLen i : Nat) (hv : 0x80 ≤ buf i) :
    parse_rx_step km buf i = (none, i + 1) ∧
    (i < bufLen → parse_rx_from km buf bufLen i = parse_rx_from km buf bufLen (i + 1)) := by
  have hs : parse_rx_step km buf i = (none, i + 1) := by
    unfold parse_rx_step
    simp only
    rw [if_pos hv]
  refine ⟨hs, ?_⟩
  intro hlt
  rw [parse_rx_from_step km buf bufLen i hlt, hs]
  rfl

/-- Witness of C12: with nodes for the triggers `0x90` and `0x3C`, the batch
`90 3C 40` dispatches nothing for `0x90` and dispatches `"A"` for the `0x3C`
that follows it, and the batch `90 40` dispatches nothing. -/
theorem parse_rx_data_status_byte_witness :
    parse_rx_step [⟨0x90, "X"⟩, ⟨0x3C, "A"⟩] (bytes_at [0x90, 0x3C, 0x40]) 0 = (none, 1) ∧
    parse_rx_from [⟨0x90, "X"⟩, ⟨0x3C, "A"⟩] (bytes_at [0x90, 0x3C, 0x40]) 3 0 =
      parse_rx_from [⟨0x90, "X"⟩, ⟨0x3C, "A"⟩] (bytes_at [0x90, 0x3C, 0x40]) 3 1 ∧
    parse_rx_data [⟨0x90, "X"⟩, ⟨0x3C, "A"⟩] (bytes_at [0x90, 0x3C, 0x40]) 3 = ["A"] ∧
    parse_rx_data [⟨0x90, "X"⟩, ⟨0x3C, "A"⟩] (bytes_at [0x90, 0x40]) 2 = [] :=
  ⟨(parse_rx_data_status_byte [⟨0x90, "X"⟩, ⟨0x3C, "A"⟩] (bytes_at [0x90, 0x3C, 0x40]) 3 0
      (by decide)).1,
    (parse_rx_data_status_byte [⟨0x90, "X"⟩, ⟨0x3C, "A"⟩] (bytes_at [0x90, 0x3C, 0x40]) 3 0
      (by decide)).2 (by decide),
    by decide, by decide⟩

/-! ## The claim on the timer wake -/

/-- A pass that gets as far as the read calls `snd_rawmidi_read` first. -/
theorem main_loop_pass_reads (cfg : Config) (km : List KEYMAP_NODE_T) (w : Wake)
    (hstop : w.stop = false) (hpoll : 0 ≤ w.poll_err) (hrev : 0 ≤ w.revents_err)
    (herr : w.revents &&& (POLLERR ||| POLLHUP) = 0) (hin : w.revents &&& POLLIN ≠ 0) :
    (main_loop_pass cfg km w).1.head? = some .snd_rawmidi_read := by
  cases hread : w.read with
  | received bytes =>
    rw [main_loop_pass_received cfg km w bytes hread hstop hpoll hrev herr hin]
    split_ifs <;> rfl
  | failed errno =>
    have h1 : ¬ (w.stop = true ∨ (w.poll_err < 0 ∧ w.poll_eintr = true)) := by
      rw [hstop]; simp; omega
    have h2 : ¬ w.poll_err < 0 := by omega
    have h3 : ¬ w.revents_err < 0 := by omega
    have h4 : ¬ (w.revents &&& (POLLERR ||| POLLHUP) ≠ 0) := by simp [herr]
    unfold main_loop_pass
    rw [if_neg h1, if_neg h2, if_neg h3, if_neg h4, if_neg hin, hread]
    simp only
    split_ifs <;> rfl

/-- C13 as stated fails.  On a wake with the timer ready and the input ready at
the same time, the pass does not look at the timer: it reads the batch `3C 40`,
calls `parse_rx_data`, arms the timer again and goes on to the next `poll`. -/
theorem timer_ready_with_input_ready_reads :
    (⟨false, 2, false, 0, POLLIN, POLLIN, .received [0x3C, 0x40], 0, fun _ => 0⟩ :
      Wake).timer_revents &&& POLLIN ≠ 0 ∧
    main_loop_pass ⟨true, (5, 0), true, true⟩ [⟨0x3C, "A"⟩]
      ⟨false, 2, false, 0, POLLIN, POLLIN, .received [0x3C, 0x40], 0, fun _ => 0⟩
      = ([.snd_rawmidi_read, .parse_rx_data 2 ["A"], .timerfd_settime (5, 0)], .next_pass) := by
  decide

/-- C13, amended.  On a wake without shutdown flag and without poll error at
which the timer is ready: when the input does not report `POLLIN`, the pass
ends with `break` and calls nothing but `error`, so no read, no
`parse_rx_data` and no `timerfd_settime`, and the loop runs no later pass;
when the input reports `POLLIN` (and neither `POLLERR` nor `POLLHUP`), the pass
calls `snd_rawmidi_read` first, as on any wake with input. -/
theorem timer_ready_ends_loop_without_input (cfg : Config) (km : List KEYMAP_NODE_T)
    (w : Wake) (hstop : w.stop = false) (hpoll : 0 ≤ w.poll_err)
    (htimer : w.timer_revents &&& POLLIN ≠ 0) :
    (w.revents &&& POLLIN = 0 →
      (main_loop_pass cfg km w).2 = .leave_loop ∧
      (∀ e ∈ (main_loop_pass cfg km w).1, ∃ m, e = .error m) ∧
      ∀ wakes, main_loop cfg km (w :: wakes) = (main_loop_pass cfg km w).1) ∧
    (0 ≤ w.revents_err → w.revents &&& (POLLERR ||| POLLHUP) = 0 →
      w.revents &&& POLLIN ≠ 0 →
        (main_loop_pass cfg km w).1.head? = some .snd_rawmidi_read) := by
  refine ⟨?_, fun hrev herr hin => main_loop_pass_reads cfg km w hstop hpoll hrev herr hin⟩
  intro hin
  have h1 : ¬ (w.stop = true ∨ (w.poll_err < 0 ∧ w.poll_eintr = true)) := by
    rw [hstop]; simp; omega
  have h2 : ¬ w.poll_err < 0 := by omega
  have hleave : (main_loop_pass cfg km w).2 = .leave_loop ∧
      ∀ e ∈ (main_loop_pass cfg km w).1, ∃ m, e = .error m := by
    unfold main_loop_pass
    rw [if_neg h1, if_neg h2]
    by_cases h3 : w.revents_err < 0
    · rw [if_pos h3]; simp
    · rw [if_neg h3]
      by_cases h4 : w.revents &&& (POLLERR ||| POLLHUP) ≠ 0
      · rw [if_pos h4]; simp
      · rw [if_neg h4, if_pos hin, if_pos htimer]; simp
  refine ⟨hleave.1, hleave.2, ?_⟩
  intro wakes
  unfold main_loop
  rw [hleave.1]

/-- Witness of C13, amended: with the timer ready and no input, the pass leaves
the loop and calls nothing, whatever wakes would follow; with the timer and the
input both ready, the pass reads. -/
theorem timer_ready_ends_loop_without_input_witness :
    main_loop_pass ⟨true, (5, 0), true, true⟩ [⟨0x3C, "A"⟩]
      ⟨false, 1, false, 0, 0, POLLIN, .received [0x3C, 0x40], 0, fun _ => 0⟩
      = ([], .leave_loop) ∧
    main_loop ⟨true, (5, 0), true, true⟩ [⟨0x3C, "A"⟩]
      [⟨false, 1, false, 0, 0, POLLIN, .received [0x3C, 0x40], 0, fun _ => 0⟩,
       ⟨false, 1, false, 0, POLLIN, 0, .received [0x3C, 0x40], 0, fun _ => 0⟩] = [] ∧
    (main_loop_pass ⟨true, (5, 0), true, true⟩ [⟨0x3C, "A"⟩]
      ⟨false, 2, false, 0, POLLIN, POLLIN, .received [0x3C, 0x40], 0, fun _ => 0⟩).1.head?
      = some .snd_rawmidi_read :=
  ⟨by decide,
    by
      rw [((timer_ready_ends_loop_without_input ⟨true, (5, 0), true, true⟩ [⟨0x3C, "A"⟩]
        ⟨false, 1, false, 0, 0, POLLIN, .received [0x3C, 0x40], 0, fun _ => 0⟩
        rfl (by decide) (by decide)).1 (by decide)).2.2]
      decide,
    (timer_ready_ends_loop_without_input ⟨true, (5, 0), true, true⟩ [⟨0x3C, "A"⟩]
      ⟨false, 2, false, 0, POLLIN, POLLIN, .received [0x3C, 0x40], 0, fun _ => 0⟩
      rfl (by decide) (by decide)).2 (by decide) (by decide) (by decide)⟩

end MidiToKb
